import Mathlib

/-!
Verification of the koreo-ts workflow graph engine.

A shallow embedding of the graph construction and inflation engine of the
koreo-ts repository (`src/api/graphs.ts`, `src/api/inflated-graphs.ts`,
`src/api/managed-resources.ts`), together with theorems settling the frozen
claims about its specification.

Modelling conventions:
* Dynamic (JSON-shaped) TypeScript values are modelled by `JsValue`.
* The asynchronous Kubernetes fetches (`src/api/workflows.ts`,
  `src/api/functions.ts`, `src/api/kubernetes.ts` — plain try/catch wrappers
  around the cluster API, returning `null` on any failure) are modelled as an
  environment `Env` of pure lookup functions returning `Option`.
* JavaScript `Record` objects used as deduplication maps are modelled as
  association lists with JS insertion-order semantics (`aset` overwrites in
  place, appends fresh keys; `Object.values` is the value projection).
* `uuidv4()` is modelled by a caller-supplied token generator `gen : Nat → String`
  together with a call counter threaded in a state monad: one program run
  corresponds to one choice of `gen`.
* Thrown JavaScript exceptions (in particular `TypeError` from property access
  on `undefined`) are modelled with `Except String`.
* Fetched Kubernetes objects are projected to the fields the engine reads
  (`kind`, `metadata.uid`, `metadata.name`) as `Krm`.
* The concurrently issued step-building tasks of `Promise.all` are joined
  before any of their results is consumed; they are modelled by a sequential
  fold in declared step order.
* The `dependents` record written by `createEdge` in `graphs.ts` is write-only
  in the source (never read by the engine) and is not modelled.
-/

namespace Koreo

/-- JSON-shaped dynamic value (the `unknown` values reaching the engine). -/
inductive JsValue where
  | str (s : String)
  | num (n : Int)
  | bool (b : Bool)
  | null
  | arr (items : List JsValue)
  | obj (fields : List (String × JsValue))

/-- JS property access `v[k]`; missing key or non-object receiver yields
`undefined`, modelled as `none`. -/
def JsValue.get? : JsValue → String → Option JsValue
  | .obj fields, k => (fields.find? (fun p => p.1 == k)).map (·.2)
  | _, _ => none

/-- The JS `in` operator restricted to the string keys the guards test
(`"apiVersion" in value` etc.); arrays have none of these keys. -/
def JsValue.hasKey : JsValue → String → Bool
  | .obj fields, k => fields.any (fun p => p.1 == k)
  | _, _ => false

/-- `typeof v === "object"` (true for objects, arrays and `null`). -/
def JsValue.isObjectType : JsValue → Bool
  | .obj _ => true
  | .arr _ => true
  | .null => true
  | _ => false

def JsValue.isNull : JsValue → Bool
  | .null => true
  | _ => false

def JsValue.isArray : JsValue → Bool
  | .arr _ => true
  | _ => false

/-- JS truthiness of a value. -/
def JsValue.truthy : JsValue → Bool
  | .null => false
  | .str s => !(s == "")
  | .num n => !(n == 0)
  | .bool b => b
  | .arr _ => true
  | .obj _ => true

/-- Optional chaining `v?.k` on a possibly-undefined value: short-circuits on
`undefined` (`none`) and on `null`, otherwise plain property access. -/
def optChain (v : Option JsValue) (k : String) : Option JsValue :=
  match v with
  | none => none
  | some .null => none
  | some w => w.get? k

/-- JS strict equality `v === s` between a possibly-undefined dynamic value and
a string literal. -/
def jsStrEq (v : Option JsValue) (s : String) : Bool :=
  match v with
  | some (.str t) => t == s
  | _ => false

/-! ## Record / Set helpers (JS semantics) -/

/-- `m[k] = v` on a JS record: overwrite in place if the key exists (keeping
its position in insertion order), otherwise append. -/
def aset {α : Type} (m : List (String × α)) (k : String) (v : α) : List (String × α) :=
  if m.any (fun p => p.1 == k) then
    m.map (fun p => if p.1 == k then (k, v) else p)
  else
    m ++ [(k, v)]

/-- `m[k]` on a JS record (`undefined` modelled as `none`). -/
def aget? {α : Type} (m : List (String × α)) (k : String) : Option α :=
  (m.find? (fun p => p.1 == k)).map (·.2)

/-- `Object.values(m)`. -/
def avalues {α : Type} (m : List (String × α)) : List α := m.map (·.2)

/-- `Set.add` (insertion-ordered, deduplicating). -/
def setAdd (l : List String) (x : String) : List String :=
  if l.contains x then l else l ++ [x]

/-- `new Set(l)` materialized in insertion order. -/
def dedupList (l : List String) : List String := l.foldl setAdd []

/-- `Array.join("-")`. -/
def joinDash : List String → String
  | [] => ""
  | [x] => x
  | x :: xs => x ++ "-" ++ joinDash xs

/-! ## The step-dependency regular expression

`graphs.ts` line 35: `const WORKFLOW_STEP_DEPENDENCY_REGEX = /steps\.([a-zA-Z0-9_-]+)/g;`
applied with `matchAll`, i.e. all non-overlapping matches left to right, each
capturing the maximal label run after a literal `steps.`. -/

/-- A character of the capture class `[a-zA-Z0-9_-]`. -/
def isLabelChar (c : Char) : Bool := c.isAlphanum || c == '_' || c == '-'

/-- All capture groups of `matchAll` with the dependency regex, scanning a
character list; the fuel is an upper bound on the number of scanning steps and
is instantiated with the list length (each step consumes at least one
character). -/
def scanStepsAux : Nat → List Char → List String
  | 0, _ => []
  | f + 1, 's' :: 't' :: 'e' :: 'p' :: 's' :: '.' :: c :: rest =>
    if isLabelChar c then
      String.mk (c :: rest.takeWhile isLabelChar) ::
        scanStepsAux f (rest.dropWhile isLabelChar)
    else
      scanStepsAux f ('t' :: 'e' :: 'p' :: 's' :: '.' :: c :: rest)
  | f + 1, _ :: rest => scanStepsAux f rest
  | _ + 1, [] => []

/-- All labels matched by `steps\.([a-zA-Z0-9_-]+)/g` in a string, in match
order. -/
def scanSteps (s : String) : List String := scanStepsAux s.data.length s.data

/-- JS whitespace as far as the engine's inputs are concerned. -/
def isJsSpace (c : Char) : Bool := c == ' ' || c == '\t' || c == '\n' || c == '\r'

/-- `val.trim().startsWith("=")`: the first non-whitespace character is the
expression marker. -/
def exprMarked (s : String) : Bool :=
  match s.data.dropWhile isJsSpace with
  | '=' :: _ => true
  | _ => false

/-! ## Data model (`src/types/workflow.ts`, `src/types/graph.ts`) -/

/-- The object metadata fields the engine reads. -/
structure ObjectMeta where
  uid : Option String
  name : Option String
deriving DecidableEq

/-- Projection of a fetched Kubernetes object to the fields read by the
engine. -/
structure Krm where
  kind : Option String
  metadata : Option ObjectMeta
deriving DecidableEq

def Krm.uid? (k : Krm) : Option String := k.metadata.bind (·.uid)

def Krm.name? (k : Krm) : Option String := k.metadata.bind (·.name)

structure LogicRef where
  kind : String
  name : String

structure RefSwitchCase where
  caseName : String
  kind : String
  name : String

structure RefSwitch where
  switchOn : String
  cases : Option (List RefSwitchCase)

structure ForEachSpec where
  itemIn : String
  inputKey : String

structure ConfigStep where
  label : Option String
  ref : LogicRef
  inputs : Option JsValue

structure Step where
  label : String
  ref : Option LogicRef
  refSwitch : Option RefSwitch
  forEach : Option ForEachSpec
  inputs : Option JsValue

structure WorkflowSpec where
  configStep : Option ConfigStep
  steps : List Step

structure Workflow where
  metadata : Option ObjectMeta
  spec : WorkflowSpec

/-- `Workflow` as the `krm` stored on its node (kind is the literal
`"Workflow"`). -/
def workflowToKrm (w : Workflow) : Krm := ⟨some "Workflow", w.metadata⟩

structure WorkflowParentMeta where
  uid : Option String
  name : Option String
  annots : List (String × String)

/-- The live custom-resource instance (the workflow parent). -/
structure WorkflowParent where
  kind : Option String
  metadata : WorkflowParentMeta

def parentToKrm (p : WorkflowParent) : Krm :=
  ⟨p.kind, some ⟨p.metadata.uid, p.metadata.name⟩⟩

inductive EdgeType where
  | parentToWorkflow
  | workflowToStep
  | stepToStep
  | stepToResource
deriving DecidableEq

structure KEdge where
  id : String
  source : String
  target : String
  type : EdgeType
deriving DecidableEq

/-- `ManagedKubernetesResource`: a fetched live object together with the
`readonly` flag recorded in the annotation payload (dynamically typed in the
source, hence `Option JsValue`). -/
structure ManagedKubernetesResource where
  resource : Krm
  readonly : Option JsValue

mutual
/-- Internal graph node (`KNode` of `src/types/graph.ts`). The optional step
label models `metadata?.label`; `refSwitch` and `subWorkflow` nodes carry no
`krm` (property access on it is `undefined` in the source). -/
inductive KNode where
  | workflow (id : String) (krm : Krm) (label : Option String)
  | valueFunction (id : String) (krm : Krm) (label : Option String)
  | resourceFunction (id : String) (krm : Krm) (label : Option String)
      (managedResources : Option (List ManagedKubernetesResource))
  | parent (id : String) (krm : Krm)
  | refSwitch (id : String) (switchOn : String)
      (caseNodes : List (String × KNode))
      (managedResources : List ManagedKubernetesResource)
      (label : Option String)
  | subWorkflow (id : String) (workflowGraph : GraphV)
      (workflowLeafNodeIds : List String)
/-- Internal graph (`Graph` of `src/types/graph.ts`): plain node and edge
arrays plus the aggregated managed resources (always an array after
`dedupedGraphToGraph`). -/
inductive GraphV where
  | mk (nodes : List KNode) (edges : List KEdge)
      (managedResources : List ManagedKubernetesResource)
end

def GraphV.nodes : GraphV → List KNode
  | .mk ns _ _ => ns

def GraphV.edges : GraphV → List KEdge
  | .mk _ es _ => es

def GraphV.managedResources : GraphV → List ManagedKubernetesResource
  | .mk _ _ ms => ms

def KNode.id : KNode → String
  | .workflow i _ _ => i
  | .valueFunction i _ _ => i
  | .resourceFunction i _ _ _ => i
  | .parent i _ => i
  | .refSwitch i _ _ _ _ => i
  | .subWorkflow i _ _ => i

/-- `node.metadata?.label` (the `parent` node is created without metadata). -/
def KNode.label : KNode → Option String
  | .workflow _ _ l => l
  | .valueFunction _ _ l => l
  | .resourceFunction _ _ l _ => l
  | .parent _ _ => none
  | .refSwitch _ _ _ _ l => l
  | .subWorkflow _ _ _ => none

/-- `node.krm` (`undefined` on switch and sub-workflow nodes). -/
def KNode.krm? : KNode → Option Krm
  | .workflow _ k _ => some k
  | .valueFunction _ k _ => some k
  | .resourceFunction _ k _ _ => some k
  | .parent _ k => some k
  | .refSwitch _ _ _ _ _ => none
  | .subWorkflow _ _ _ => none

/-- Reassign `node.id` (used by the expanded transform's re-homing mutation). -/
def KNode.setId : KNode → String → KNode
  | .workflow _ k l, i => .workflow i k l
  | .valueFunction _ k l, i => .valueFunction i k l
  | .resourceFunction _ k l m, i => .resourceFunction i k l m
  | .parent _ k, i => .parent i k
  | .refSwitch _ so cs m l, i => .refSwitch i so cs m l
  | .subWorkflow _ g ls, i => .subWorkflow i g ls

/-- Assign `node.metadata.label` (creating the metadata object if absent). -/
def KNode.setLabel : KNode → Option String → KNode
  | .workflow i k _, l => .workflow i k l
  | .valueFunction i k _, l => .valueFunction i k l
  | .resourceFunction i k _ m, l => .resourceFunction i k l m
  | .parent i k, _ => .parent i k
  | .refSwitch i so cs m _, l => .refSwitch i so cs m l
  | .subWorkflow i g ls, _ => .subWorkflow i g ls

/-- The key-deduplicated accumulator graph of the builder. -/
structure DedupedGraph where
  nodes : List (String × KNode)
  edges : List (String × KEdge)
  managedResources : List ManagedKubernetesResource

def dedupedGraphToGraph (g : DedupedGraph) : GraphV :=
  .mk (avalues g.nodes) (avalues g.edges) g.managedResources

/-! ## `src/api/managed-resources.ts` -/

/-- The annotation key `koreo.dev/managed-resources`. -/
def managedResourcesKey : String := "koreo.dev/managed-resources"

/-- `{ workflow: "", resources: {} }`. -/
def emptyManagedResources : JsValue :=
  .obj [("workflow", .str ""), ("resources", .obj [])]

/-- `parseManagedResources(managedResourcesStringOrParent)`. `JSON.parse` is
the external JS library function and is passed in as `jsonParse`; a parse
exception is modelled as `none` (the source catches it and falls back). An
absent or empty annotation string is falsy and also falls back. The parsed
value is returned as-is, without any shape validation. -/
def parseManagedResources (jsonParse : String → Option JsValue)
    (input : String ⊕ WorkflowParent) : JsValue :=
  let managedResourcesString : Option String :=
    match input with
    | .inl s => some s
    | .inr parent =>
      (parent.metadata.annots.find? (fun p => p.1 == managedResourcesKey)).map (·.2)
  match managedResourcesString with
  | none => emptyManagedResources
  | some s =>
    if s == "" then emptyManagedResources
    else
      match jsonParse s with
      | some parsed => parsed
      | none => emptyManagedResources

/-- Duck-typed guard `isKubernetesResource`. -/
def isKubernetesResource (v : JsValue) : Bool :=
  v.isObjectType && !v.isNull && v.hasKey "apiVersion" && v.hasKey "kind" &&
    v.hasKey "name" && v.hasKey "readonly" && v.hasKey "resourceFunction"

/-- Duck-typed guard `isManagedResources`. -/
def isManagedResources (v : JsValue) : Bool :=
  v.isObjectType && !v.isNull && !v.isArray && !isKubernetesResource v

/-- Duck-typed guard `isKubernetesResourceOrManagedResourcesArray`. -/
def isKubernetesResourceOrManagedResourcesArray (v : JsValue) : Bool :=
  match v with
  | .arr items => items.all (fun i => isKubernetesResource i || isManagedResources i)
  | _ => false

/-! ## The fetch environment

`src/api/workflows.ts`, `src/api/functions.ts` and the arbitrary-resource read
of `src/api/kubernetes.ts` wrap cluster API calls in try/catch and return
`null` on any failure; the engine consumes them as pure not-found-aware
lookups. -/

structure Env where
  /-- `getWorkflow(workflowId, namespace)`, keyed namespace-first here. -/
  workflows : String → String → Option Workflow
  /-- `getWorkflowInstance(workflow, instanceId)`. -/
  instanceOf : Workflow → String → Option WorkflowParent
  /-- `getValueFunction(name, namespace)`, keyed namespace-first here. -/
  valueFunctions : String → String → Option Krm
  /-- `getResourceFunction(name, namespace)`, keyed namespace-first here. -/
  resourceFunctions : String → String → Option Krm
  /-- `k8sApi.read` keyed by apiVersion, kind, namespace, name. -/
  resources : String → String → String → String → Option Krm
  /-- The external `JSON.parse` (none = parse exception). -/
  jsonParse : String → Option JsValue

/-- The builder/inflater computation monad: a `uuidv4` call counter plus
JS exceptions. -/
abbrev Build := StateT Nat (Except String)

/-- `uuidv4()`: draws the next token from the run's generator. -/
def uuidv4 (gen : Nat → String) : Build String := do
  let n ← get
  set (n + 1)
  pure (gen n)

/-- `x || uuidv4()` for an optional stable identifier (an empty string is
falsy in JS and also falls back to a fresh token). -/
def idOrUuid (gen : Nat → String) (stableId : Option String) : Build String :=
  match stableId with
  | some u => if u == "" then uuidv4 gen else pure u
  | none => uuidv4 gen

/-! ## Dependency scanning (`findAndAddStepDependencies`, graphs.ts 175-210) -/

/-- `createEdge(source, target, type)` of `graphs.ts` (the write to
`source.dependents` is not modelled; see the header). -/
def createEdge (source target : KNode) (type : EdgeType) : KEdge :=
  ⟨source.id ++ ":" ++ target.id, source.id, target.id, type⟩

/-- The mutable state threaded through `processValue`: the graph accumulator,
the `nodesWithDependents` set, and the `foundDependency` flag. -/
structure ScanState where
  graph : DedupedGraph
  nodesWithDependents : List String
  foundDependency : Bool

/-- The body of the `matches.forEach` callback for one captured label: add a
`StepToStep` edge when the label resolves to a present node, and set
`foundDependency` unconditionally. -/
def addDependencyEdge (stepNode : KNode) (stepNodes : List (String × String))
    (st : ScanState) (parentLabel : String) : ScanState :=
  let st :=
    match aget? stepNodes parentLabel with
    | some parentNodeId =>
      match aget? st.graph.nodes parentNodeId with
      | some parentNode =>
        let edge := createEdge parentNode stepNode .stepToStep
        { st with
          graph := { st.graph with edges := aset st.graph.edges edge.id edge },
          nodesWithDependents := setAdd st.nodesWithDependents parentNodeId }
      | none => st
    | none => st
  { st with foundDependency := true }

mutual
/-- The recursive `processValue` closure: expression-marked strings are
scanned with the dependency regex, arrays and objects are walked, all other
scalars are ignored. -/
def processValue (stepNode : KNode) (stepNodes : List (String × String)) :
    JsValue → ScanState → ScanState
  | .str s, st =>
    if exprMarked s then (scanSteps s).foldl (addDependencyEdge stepNode stepNodes) st
    else st
  | .arr items, st => processValueItems stepNode stepNodes items st
  | .obj fields, st => processValueFields stepNode stepNodes fields st
  | _, st => st
def processValueItems (stepNode : KNode) (stepNodes : List (String × String)) :
    List JsValue → ScanState → ScanState
  | [], st => st
  | v :: vs, st =>
    processValueItems stepNode stepNodes vs (processValue stepNode stepNodes v st)
def processValueFields (stepNode : KNode) (stepNodes : List (String × String)) :
    List (String × JsValue) → ScanState → ScanState
  | [], st => st
  | (_, v) :: fs, st =>
    processValueFields stepNode stepNodes fs (processValue stepNode stepNodes v st)
end

/-- `findAndAddStepDependencies(value, stepNode, stepNodes, graph,
nodesWithDependents)`: runs `processValue` with a fresh `foundDependency`
flag; returns the updated graph, the updated dependent set and the flag. -/
def findAndAddStepDependencies (value : JsValue) (stepNode : KNode)
    (stepNodes : List (String × String)) (graph : DedupedGraph)
    (nodesWithDependents : List String) : DedupedGraph × List String × Bool :=
  let st := processValue stepNode stepNodes value ⟨graph, nodesWithDependents, false⟩
  (st.graph, st.nodesWithDependents, st.foundDependency)

mutual
/-- Modelled from the spec: `findReferences(value) -> set<stepLabel>`
("recursively walks an arbitrary nested value (maps, lists, scalars); for
every string scalar that begins with the expression-marker character, scans it
for occurrences of the pattern `steps.<label>` ... and collects every label
found"). This is the spec-side counterpart used to state the refinement
claims; the source-side scan is `processValue` above. -/
def specFindReferences : JsValue → List String
  | .str s => if exprMarked s then scanSteps s else []
  | .arr items => specFindReferencesItems items
  | .obj fields => specFindReferencesFields fields
  | _ => []
def specFindReferencesItems : List JsValue → List String
  | [] => []
  | v :: vs => specFindReferences v ++ specFindReferencesItems vs
def specFindReferencesFields : List (String × JsValue) → List String
  | [] => []
  | (_, v) :: fs => specFindReferences v ++ specFindReferencesFields fs
end

/-! ## The graph builder (`src/api/graphs.ts`) -/

/-- `getManagedResourcesForWorkflow(workflowId, managedResource?)`. -/
def getManagedResourcesForWorkflow (workflowId : String)
    (managedResource : Option JsValue) : Option (List JsValue) :=
  match managedResource with
  | none => none
  | some mr =>
    if !mr.truthy then none
    else if isManagedResources mr && jsStrEq (mr.get? "workflow") workflowId then
      some [mr]
    else if isKubernetesResourceOrManagedResourcesArray mr then
      some ((match mr with | .arr items => items | _ => []).filter
        (fun x => isManagedResources x && jsStrEq (x.get? "workflow") workflowId))
    else none

/-- `getManagedResourcesForResourceFunction(functionId, managedResource?)`. -/
def getManagedResourcesForResourceFunction (functionId : String)
    (managedResource : Option JsValue) : Option (List JsValue) :=
  match managedResource with
  | none => none
  | some mr =>
    if !mr.truthy then none
    else if isKubernetesResource mr && jsStrEq (mr.get? "resourceFunction") functionId then
      some [mr]
    else if isKubernetesResourceOrManagedResourcesArray mr then
      some ((match mr with | .arr items => items | _ => []).filter
        (fun x => isKubernetesResource x && jsStrEq (x.get? "resourceFunction") functionId))
    else none

/-- `getKubernetesResource(resource)`: the `k8sApi.read` call with the
descriptor's fields; any failure (including non-string fields reaching the
API) is caught and becomes `null`. -/
def getKubernetesResource (env : Env) (resource : JsValue) : Option Krm :=
  match resource.get? "apiVersion", resource.get? "kind",
        resource.get? "namespace", resource.get? "name" with
  | some (.str apiVersion), some (.str kind), some (.str ns), some (.str name) =>
    env.resources apiVersion kind ns name
  | _, _, _, _ => none

/-- `addManagedResource(managedResource, parentNode)`: fetch the live object;
on success lazily initialize and push onto the node's `managedResources`. -/
def addManagedResource (env : Env) (managedResource : JsValue)
    (nodeManagedResources : Option (List ManagedKubernetesResource)) :
    Option (List ManagedKubernetesResource) :=
  match getKubernetesResource env managedResource with
  | none => nodeManagedResources
  | some k8sResource =>
    some (nodeManagedResources.getD [] ++
      [⟨k8sResource, managedResource.get? "readonly"⟩])

def createWorkflowNode (gen : Nat → String) (workflow : Workflow)
    (stepLabel : Option String) : Build KNode := do
  let id ← idOrUuid gen (workflowToKrm workflow).uid?
  pure (.workflow id (workflowToKrm workflow) stepLabel)

def createValueFunctionNode (gen : Nat → String) (logic : Krm)
    (stepLabel : Option String) : Build KNode := do
  let id ← idOrUuid gen logic.uid?
  pure (.valueFunction id logic stepLabel)

def createParentNode (gen : Nat → String) (parent : WorkflowParent) : Build KNode := do
  let id ← idOrUuid gen (parentToKrm parent).uid?
  pure (.parent id (parentToKrm parent))

/-- `createRefSwitchNode`: deterministic id from the joined case-node ids. -/
def createRefSwitchNode (switchOn : String) (caseNodes : List (String × KNode))
    (managedResources : List ManagedKubernetesResource)
    (stepLabel : Option String) : KNode :=
  let id := "switch-" ++ joinDash ((avalues caseNodes).map KNode.id)
  .refSwitch id switchOn caseNodes managedResources stepLabel

/-- `createSubWorkflowNode(workflowNode, workflowGraph, workflowLeafNodeIds)`.
The first argument is `workflowGraph.nodes[0] as WorkflowNode`; when the node
list is empty this is `undefined` and the `workflowNode.krm` access throws. -/
def createSubWorkflowNode (gen : Nat → String) (workflowNode : Option KNode)
    (workflowGraph : GraphV) (workflowLeafNodeIds : List String) : Build KNode := do
  match workflowNode with
  | none => throw "TypeError: cannot read properties of undefined (reading krm)"
  | some wn =>
    match wn.krm? with
    | none => throw "TypeError: cannot read properties of undefined (reading metadata)"
    | some krm => do
      let id ← match krm.uid? with
        | some u =>
          if u == "" then do pure ("sub-" ++ (← uuidv4 gen))
          else pure ("sub-" ++ u)
        | none => do pure ("sub-" ++ (← uuidv4 gen))
      pure (.subWorkflow id workflowGraph workflowLeafNodeIds)

def getValueFunctionNode (env : Env) (gen : Nat → String)
    (ns name stepLabel : String) : Build (Option KNode) := do
  match env.valueFunctions ns name with
  | none => pure none
  | some func => do
    let node ← createValueFunctionNode gen func (some stepLabel)
    pure (some node)

def getResourceFunctionNode (env : Env) (gen : Nat → String)
    (ns name stepLabel : String) (managedResource : Option (List JsValue)) :
    Build (Option KNode) := do
  match env.resourceFunctions ns name with
  | none => pure none
  | some func => do
    let id ← idOrUuid gen func.uid?
    let mrs : Option (List ManagedKubernetesResource) :=
      match managedResource with
      | none => none
      | some resources => resources.foldl (fun acc r => addManagedResource env r acc) none
    pure (some (.resourceFunction id func (some stepLabel) mrs))

/-- The recursive knot: `getWorkflowGraphWithLeafNodes` as its callees see it. -/
abbrev WLNFun := String → String → Option String → Option String → Option JsValue →
  Build (GraphV × List String)

/-- One `iterationNode` pass of the resource-enrichment loop inside
`getSubWorkflowNode`. -/
def enrichNode (node iterationNode : KNode) : KNode :=
  match node, iterationNode with
  | .resourceFunction id krm label mrs, .resourceFunction iterId _ _ (some iterMrs) =>
    if id == iterId then .resourceFunction id krm label (some (mrs.getD [] ++ iterMrs))
    else node
  | _, _ => node

/-- `getSubWorkflowNode(namespace, stepLabel, subWorkflowId, managedResources?)`
(graphs.ts 342-400). -/
def getSubWorkflowNode (gen : Nat → String) (recurse : WLNFun)
    (ns stepLabel subWorkflowId : String) (managedResources : Option (List JsValue)) :
    Build (Option KNode) := do
  let (workflowGraph, leafNodes) ← recurse ns subWorkflowId (some stepLabel) none none
  -- `if (!workflowGraph.nodes) return null;` never fires: `nodes` is always an
  -- array, and an array is truthy in JS even when empty.
  let subWorkflowNode ←
    createSubWorkflowNode gen workflowGraph.nodes.head? workflowGraph leafNodes
  match managedResources with
  | none => pure (some subWorkflowNode)
  | some iterations =>
    match subWorkflowNode with
    | .subWorkflow swId swGraph swLeafIds => do
      let (nodes, subWorkflowResources) ← iterations.foldlM
        (fun (acc : List KNode × List ManagedKubernetesResource) iterationManagedResources => do
          let (iterationGraph, _) ←
            recurse ns subWorkflowId (some stepLabel) none (some iterationManagedResources)
          let nodes := acc.1.map (fun node => iterationGraph.nodes.foldl enrichNode node)
          pure (nodes, acc.2 ++ iterationGraph.managedResources))
        (swGraph.nodes, [])
      pure (some (.subWorkflow swId (.mk nodes swGraph.edges subWorkflowResources) swLeafIds))
    | other => pure (some other)

/-- `addRefSwitchNode` (graphs.ts 488-551). -/
def addRefSwitchNode (env : Env) (gen : Nat → String) (recurse : WLNFun)
    (graph : DedupedGraph) (stepNodes : List (String × String)) (refSwitch : RefSwitch)
    (ns stepLabel : String) (managedResource : Option JsValue) :
    Build (DedupedGraph × List (String × String)) := do
  let (caseNodes, refSwitchResources) ← (refSwitch.cases.getD []).foldlM
    (fun (acc : List (String × KNode) × List ManagedKubernetesResource) switchCase => do
      let (logicNode, collected) ←
        if switchCase.kind == "Workflow" then do
          let subWorkflowNode ← getSubWorkflowNode gen recurse ns stepLabel
            switchCase.name (getManagedResourcesForWorkflow switchCase.name managedResource)
          let collected := match subWorkflowNode with
            | some (.subWorkflow _ g _) => g.managedResources
            | _ => []
          pure (subWorkflowNode, collected)
        else if switchCase.kind == "ValueFunction" then do
          let n ← getValueFunctionNode env gen ns switchCase.name stepLabel
          pure (n, ([] : List ManagedKubernetesResource))
        else do
          let resourceFuncNode ← getResourceFunctionNode env gen ns switchCase.name
            stepLabel (getManagedResourcesForResourceFunction switchCase.name managedResource)
          let collected := match resourceFuncNode with
            | some (.resourceFunction _ _ _ (some mrs)) => mrs
            | _ => []
          pure (resourceFuncNode, collected)
      match logicNode with
      | some n => pure (aset acc.1 switchCase.caseName n, acc.2 ++ collected)
      | none => pure (acc.1, acc.2 ++ collected))
    ([], [])
  let refSwitchNode := createRefSwitchNode refSwitch.switchOn caseNodes
    refSwitchResources (some stepLabel)
  let graph := { graph with
    nodes := aset graph.nodes refSwitchNode.id refSwitchNode,
    managedResources := graph.managedResources ++ refSwitchResources }
  pure (graph, aset stepNodes stepLabel refSwitchNode.id)

/-- `addStepNodes` (graphs.ts 212-285). -/
def addStepNodes (env : Env) (gen : Nat → String) (recurse : WLNFun) (ns : String)
    (step : Step) (graph : DedupedGraph) (stepNodes : List (String × String))
    (managedResources : Option JsValue) :
    Build (DedupedGraph × List (String × String)) := do
  match step.refSwitch, step.ref with
  | none, none => pure (graph, stepNodes)
  | some refSwitch, _ =>
    addRefSwitchNode env gen recurse graph stepNodes refSwitch ns step.label
      (optChain (optChain managedResources "resources") step.label)
  | none, some ref =>
    let stepLabel := step.label
    if ref.kind == "Workflow" then do
      let subWorkflowNode ← getSubWorkflowNode gen recurse ns stepLabel ref.name
        (getManagedResourcesForWorkflow ref.name
          (optChain (optChain managedResources "resources") stepLabel))
      match subWorkflowNode with
      | none => pure (graph, stepNodes)
      | some swn =>
        let graph := { graph with nodes := aset graph.nodes swn.id swn }
        let stepNodes := aset stepNodes stepLabel swn.id
        -- `if (subWorkflowNode.workflowGraph.managedResources)`: always an array
        let graph := match swn with
          | .subWorkflow _ g _ =>
            { graph with managedResources := graph.managedResources ++ g.managedResources }
          | _ => graph
        pure (graph, stepNodes)
    else if ref.kind == "ValueFunction" then do
      let stepNode ← getValueFunctionNode env gen ns ref.name stepLabel
      match stepNode with
      | none => pure (graph, stepNodes)
      | some n =>
        pure ({ graph with nodes := aset graph.nodes n.id n },
          aset stepNodes stepLabel n.id)
    else do
      let stepNode ← getResourceFunctionNode env gen ns ref.name stepLabel
        (getManagedResourcesForResourceFunction ref.name
          (optChain (optChain managedResources "resources") stepLabel))
      match stepNode with
      | none => pure (graph, stepNodes)
      | some n =>
        let graph := match n with
          | .resourceFunction _ _ _ (some mrs) =>
            { graph with managedResources := graph.managedResources ++ mrs }
          | _ => graph
        pure ({ graph with nodes := aset graph.nodes n.id n },
          aset stepNodes stepLabel n.id)

/-- The per-step body of the edge pass (graphs.ts 110-161): add dependency
edges for the step's `inputs`, `forEach.itemIn` and `refSwitch.switchOn`;
when no dependency was found add a `WorkflowToStep` edge from the Workflow
node. -/
def stepEdgeForStep (workflowNode : KNode) (stepNodes : List (String × String))
    (acc : DedupedGraph × List String) (step : Step) : DedupedGraph × List String :=
  let (graph, nodesWithDependents) := acc
  match aget? stepNodes step.label with
  | none => (graph, nodesWithDependents)
  | some stepNodeId =>
    match aget? graph.nodes stepNodeId with
    | none => (graph, nodesWithDependents)
    | some stepNode =>
      let (graph, nodesWithDependents, hasDependency) :=
        match step.inputs with
        | some inputs =>
          findAndAddStepDependencies inputs stepNode stepNodes graph nodesWithDependents
        | none => (graph, nodesWithDependents, false)
      let (graph, nodesWithDependents, hasDependency) :=
        match step.forEach with
        | some forEach =>
          let (g, d, f) := findAndAddStepDependencies (.str forEach.itemIn) stepNode
            stepNodes graph nodesWithDependents
          (g, d, f || hasDependency)
        | none => (graph, nodesWithDependents, hasDependency)
      let (graph, nodesWithDependents, hasDependency) :=
        match step.refSwitch with
        | some refSwitch =>
          let (g, d, f) := findAndAddStepDependencies (.str refSwitch.switchOn) stepNode
            stepNodes graph nodesWithDependents
          (g, d, f || hasDependency)
        | none => (graph, nodesWithDependents, hasDependency)
      if hasDependency then (graph, nodesWithDependents)
      else
        let edge := createEdge workflowNode stepNode .workflowToStep
        ({ graph with edges := aset graph.edges edge.id edge }, nodesWithDependents)

/-- Lines 99-172 of `getWorkflowGraphWithLeafNodes`: create the step nodes
(the `Promise.all` task group, joined before the edge pass; modelled in
declared step order), run the edge pass, compute the leaf nodes as all
registered step node ids minus those marked as having a dependent. -/
def buildStepsEdgesLeaves (env : Env) (gen : Nat → String) (recurse : WLNFun)
    (ns : String) (workflow : Workflow) (workflowNode : KNode) (graph : DedupedGraph)
    (managedResources : Option JsValue) : Build (GraphV × List String) := do
  let (graph, stepNodes) ← workflow.spec.steps.foldlM
    (fun (acc : DedupedGraph × List (String × String)) step =>
      addStepNodes env gen recurse ns step acc.1 acc.2 managedResources)
    (graph, [])
  let (graph, nodesWithDependents) :=
    workflow.spec.steps.foldl (stepEdgeForStep workflowNode stepNodes) (graph, [])
  let allNodes := dedupList (avalues stepNodes)
  let leafNodes := allNodes.filter (fun node => !nodesWithDependents.contains node)
  pure (dedupedGraphToGraph graph, leafNodes)

/-- The body of `getWorkflowGraphWithLeafNodes` (graphs.ts 57-173), with the
recursive call abstracted as `recurse`. -/
def getWorkflowGraphWithLeafNodesF (env : Env) (gen : Nat → String) (recurse : WLNFun)
    (ns workflowId : String) (stepLabel : Option String) (instanceId : Option String)
    (managedResources : Option JsValue) : Build (GraphV × List String) := do
  let graph : DedupedGraph := ⟨[], [], []⟩
  match env.workflows ns workflowId with
  | none => pure (dedupedGraphToGraph graph, [])
  | some workflow => do
    let workflowNode ← createWorkflowNode gen workflow stepLabel
    let graph := { graph with nodes := aset graph.nodes workflowNode.id workflowNode }
    match instanceId with
    | none =>
      buildStepsEdgesLeaves env gen recurse ns workflow workflowNode graph managedResources
    | some instanceId =>
      match env.instanceOf workflow instanceId with
      | none => pure (dedupedGraphToGraph graph, [])
      | some parent => do
        let parentNode ← createParentNode gen parent
        let graph := { graph with nodes := aset graph.nodes parentNode.id parentNode }
        let parentEdge := createEdge parentNode workflowNode .parentToWorkflow
        let graph := { graph with edges := aset graph.edges parentEdge.id parentEdge }
        let managedResources := some (parseManagedResources env.jsonParse (.inr parent))
        buildStepsEdgesLeaves env gen recurse ns workflow workflowNode graph managedResources

/-- `getWorkflowGraphWithLeafNodes`, tied off with a recursion-depth fuel: the
source recurses into sub-workflows with no cycle guard, so the embedding
bounds the nesting depth; every theorem uses inputs whose depth is below the
fuel supplied. -/
def getWorkflowGraphWithLeafNodes (env : Env) (gen : Nat → String) : Nat → WLNFun
  | 0 => fun _ _ _ _ _ => throw "sub-workflow recursion fuel exhausted"
  | fuel + 1 =>
    getWorkflowGraphWithLeafNodesF env gen (getWorkflowGraphWithLeafNodes env gen fuel)

/-- `getWorkflowGraph(namespace, workflowId, instanceId?)`. -/
def getWorkflowGraph (env : Env) (gen : Nat → String) (fuel : Nat)
    (ns workflowId : String) (instanceId : Option String) : Build GraphV := do
  let (graph, _) ←
    getWorkflowGraphWithLeafNodes env gen fuel ns workflowId none instanceId none
  pure graph

/-! ## The graph inflater (`src/api/inflated-graphs.ts`) -/

/-- Presentation node. `label` and `type` come from non-null-asserted optional
fields and can be `undefined` at runtime, hence `Option`. The `metadata`
written by `addResourceNodes` is `{managedResource: true, readonly}`. -/
structure InflMeta where
  managedResource : Bool
  readonly : Option JsValue

structure InflatedNode where
  id : String
  label : Option String
  type : Option String
  krm : Option Krm
  metadata : Option InflMeta

/-- The inflater's deduplicating accumulator (`nodes`/`edges` records). -/
structure InflDeduped where
  nodes : List (String × InflatedNode)
  edges : List (String × KEdge)

structure InflatedGraph where
  nodes : List InflatedNode
  edges : List KEdge

/-- The inflater's `createEdge(sourceId, targetId, edgeType)`. -/
def createEdgeIds (sourceId targetId : String) (edgeType : EdgeType) : KEdge :=
  ⟨sourceId ++ ":" ++ targetId, sourceId, targetId, edgeType⟩

/-- `a ? a : b` on an optional string label (an empty label is falsy). -/
def pickLabel (label : Option String) (fallback : Option String) : Option String :=
  match label with
  | some l => if l == "" then fallback else some l
  | none => fallback

/-- Replace the source of the first edge whose source is `src` (the
`edges.find` + in-place mutation of the Parent branch). The edge id is left
unchanged by the source code. -/
def replaceFirstSource : List KEdge → String → String → List KEdge
  | [], _, _ => []
  | e :: es, src, newSrc =>
    if e.source == src then { e with source := newSrc } :: es
    else e :: replaceFirstSource es src newSrc

/-- `addResourceNodes(graph, parentNodeId, managedResources)`: one node per
fetched resource (id from `resource.metadata!.uid || uuidv4()`) plus a
`StepToResource` edge from the parent node. -/
def addResourceNodes (gen : Nat → String) (graph : InflDeduped) (parentNodeId : String)
    (managedResources : List ManagedKubernetesResource) : Build InflDeduped := do
  managedResources.foldlM
    (fun (g : InflDeduped) managedResource => do
      match managedResource.resource.metadata with
      | none => throw "TypeError: cannot read properties of undefined (reading uid)"
      | some md => do
        let id ← idOrUuid gen md.uid
        let node : InflatedNode :=
          ⟨id, md.name, managedResource.resource.kind, some managedResource.resource,
            some ⟨true, managedResource.readonly⟩⟩
        let edge := createEdgeIds parentNodeId id .stepToResource
        pure ⟨aset g.nodes node.id node, aset g.edges edge.id edge⟩)
    graph

/-- The per-node callback of the collapsed transform's node loop
(inflated-graphs.ts 64-148). -/
def convertGraphNode (gen : Nat → String) (includeResources : Bool)
    (acc : InflDeduped × List KEdge) (knode : KNode) :
    Build (InflDeduped × List KEdge) := do
      let (graph, koreoEdges) := acc
      match knode with
      | .subWorkflow id workflowGraph _ =>
        -- `if (!knode.workflowGraph.nodes) return;` never fires (arrays truthy)
        match workflowGraph.nodes.head? with
        | none => throw "TypeError: cannot read properties of undefined (reading metadata)"
        | some workflowNode =>
          match workflowNode.krm? with
          | none => throw "TypeError: cannot read properties of undefined (reading metadata)"
          | some krm => do
            let node : InflatedNode :=
              ⟨id, pickLabel workflowNode.label krm.name?, some "Sub-Workflow", some krm, none⟩
            let graph := { graph with nodes := aset graph.nodes node.id node }
            let graph ←
              if includeResources then
                addResourceNodes gen graph node.id workflowGraph.managedResources
              else pure graph
            pure (graph, koreoEdges)
      | .refSwitch id _ _ managedResources label => do
        -- (the `caseKRMs` array collected here by the source is unused for the
        -- emitted node and is not modelled)
        let node : InflatedNode :=
          ⟨id, pickLabel label (some "RefSwitch"), some "RefSwitch", none, none⟩
        let graph := { graph with nodes := aset graph.nodes node.id node }
        let graph ←
          if includeResources then addResourceNodes gen graph node.id managedResources
          else pure graph
        pure (graph, koreoEdges)
      | .resourceFunction id krm label managedResources => do
        let node : InflatedNode :=
          ⟨id, pickLabel label krm.name?, krm.kind, some krm, none⟩
        let graph := { graph with nodes := aset graph.nodes node.id node }
        let graph ←
          if includeResources then
            addResourceNodes gen graph node.id (managedResources.getD [])
          else pure graph
        pure (graph, koreoEdges)
      | .parent id krm =>
        let parentNodeId := "parent-" ++ id
        let node : InflatedNode :=
          ⟨parentNodeId, pickLabel none krm.name?, krm.kind, some krm, none⟩
        let graph := { graph with nodes := aset graph.nodes node.id node }
        let koreoEdges := replaceFirstSource koreoEdges id parentNodeId
        pure (graph, koreoEdges)
      | .workflow id krm label =>
        let node : InflatedNode := ⟨id, pickLabel label krm.name?, krm.kind, some krm, none⟩
        pure ({ graph with nodes := aset graph.nodes node.id node }, koreoEdges)
      | .valueFunction id krm label =>
        let node : InflatedNode := ⟨id, pickLabel label krm.name?, krm.kind, some krm, none⟩
        pure ({ graph with nodes := aset graph.nodes node.id node }, koreoEdges)

/-- The collapsed transform `convertGraph` (inflated-graphs.ts 53-154). The
node loop threads `koreoGraph.edges` because the Parent branch mutates the
first matching edge in place; the final loop then copies the (possibly
mutated) input edges into the deduplicating edge record. -/
def convertGraph (gen : Nat → String) (koreoGraph : GraphV) (includeResources : Bool) :
    Build InflDeduped := do
  let (graph, koreoEdges) ← koreoGraph.nodes.foldlM
    (convertGraphNode gen includeResources) (⟨[], []⟩, koreoGraph.edges)
  pure (koreoEdges.foldl (fun g e => { g with edges := aset g.edges e.id e }) graph)

/-- The state threaded through the expanded transform's node loop: the output
accumulator, the `workflowLeafNodes` record, and the (mutable) input edges. -/
abbrev ExpandAcc := InflDeduped × List (String × List String) × List KEdge

/-- The body of the expanded transform `convertGraphExpanded`
(inflated-graphs.ts 156-347), with the recursive call abstracted as
`recurse`. -/
def convertGraphExpandedF (gen : Nat → String) (recurse : GraphV → Bool → Build InflDeduped)
    (koreoGraph : GraphV) (includeResources : Bool) : Build InflDeduped := do
  let (graph, workflowLeafNodes, koreoEdges) ← koreoGraph.nodes.foldlM
    (fun (acc : ExpandAcc) knode => do
      let (graph, workflowLeafNodes, koreoEdges) := acc
      match knode with
      | .subWorkflow id workflowGraph workflowLeafNodeIds =>
        -- `if (!knode.workflowGraph.nodes) return;` never fires (arrays truthy)
        match workflowGraph.nodes with
        | [] => throw "TypeError: cannot read properties of undefined (reading id)"
        | workflowNode :: restNodes => do
          let prevWorkflowNodeId := workflowNode.id
          let workflowNode := workflowNode.setId id
          let workflowLeafNodes := aset workflowLeafNodes id workflowLeafNodeIds
          let subGraph ← recurse
            (.mk (workflowNode :: restNodes) workflowGraph.edges
              workflowGraph.managedResources) true
          let subEdges := (avalues subGraph.edges).map (fun e =>
            if e.source == prevWorkflowNodeId then { e with source := knode.id } else e)
          let graph := (avalues subGraph.nodes).foldl
            (fun g n => { g with nodes := aset g.nodes n.id n }) graph
          let graph := subEdges.foldl
            (fun g e => { g with edges := aset g.edges e.id e }) graph
          pure (graph, workflowLeafNodes, koreoEdges)
      | .refSwitch id _ caseNodes managedResources label => do
        let switchInNodeId := "switchIn-" ++ id
        let switchInNode : InflatedNode :=
          ⟨switchInNodeId, pickLabel label (some "RefSwitch"), some "RefSwitch", none, none⟩
        let graph := { graph with nodes := aset graph.nodes switchInNode.id switchInNode }
        let (graph, functionCaseNodes, workflowCaseNodes) ← caseNodes.foldlM
          (fun (acc : InflDeduped × List String × List (String × List String)) case_ => do
            let (graph, functionCaseNodes, workflowCaseNodes) := acc
            let (caseStr, caseNode) := case_
            match caseNode with
            | .subWorkflow _ caseGraph caseLeafIds =>
              -- `if (!caseNode.workflowGraph.nodes) return;` never fires
              match caseGraph.nodes with
              | [] => throw "TypeError: cannot read properties of undefined (reading metadata)"
              | first :: rest => do
                let first := first.setLabel (some ("case: " ++ caseStr))
                let subGraph ← recurse
                  (.mk (first :: rest) caseGraph.edges caseGraph.managedResources) false
                let graph := (avalues subGraph.nodes).foldl
                  (fun g n => { g with nodes := aset g.nodes n.id n }) graph
                let graph := (avalues subGraph.edges).foldl
                  (fun g e => { g with edges := aset g.edges e.id e }) graph
                pure (graph, functionCaseNodes,
                  workflowCaseNodes ++ [(first.id, caseLeafIds)])
            | other =>
              match other.krm? with
              | none => throw "TypeError: cannot read properties of undefined (reading kind)"
              | some krm =>
                let node : InflatedNode :=
                  ⟨other.id, some ("case: " ++ caseStr), krm.kind, some krm, none⟩
                pure ({ graph with nodes := aset graph.nodes node.id node },
                  functionCaseNodes ++ [node.id], workflowCaseNodes))
          (graph, [], [])
        let switchOutNodeId := "switchOut-" ++ id
        let switchOutNode : InflatedNode :=
          ⟨switchOutNodeId, pickLabel label (some "RefSwitch Result"),
            some "RefSwitch Result", none, none⟩
        let graph := { graph with nodes := aset graph.nodes switchOutNode.id switchOutNode }
        let graph ←
          if includeResources then
            addResourceNodes gen graph switchOutNode.id managedResources
          else pure graph
        -- redirect edges sourced from the switch to switch-out and edges
        -- targeting the switch to switch-in (in-place on koreoGraph.edges)
        let koreoEdges := koreoEdges.map (fun e =>
          let e := if e.source == id then { e with source := switchOutNodeId } else e
          if e.target == id then { e with target := switchInNodeId } else e)
        let graph := functionCaseNodes.foldl
          (fun g functionCaseNodeId =>
            let switchInEdge := createEdgeIds switchInNodeId functionCaseNodeId .stepToStep
            let switchOutEdge := createEdgeIds functionCaseNodeId switchOutNodeId .stepToStep
            let edges := aset (aset g.edges switchInEdge.id switchInEdge)
              switchOutEdge.id switchOutEdge
            { g with edges := edges }) graph
        let graph := workflowCaseNodes.foldl
          (fun g wc =>
            let (workflowNodeId, leafNodes) := wc
            let switchInEdge := createEdgeIds switchInNodeId workflowNodeId .stepToStep
            let g := { g with edges := aset g.edges switchInEdge.id switchInEdge }
            leafNodes.foldl (fun g leafNode =>
              let switchOutEdge := createEdgeIds leafNode switchOutNodeId .stepToStep
              { g with edges := aset g.edges switchOutEdge.id switchOutEdge }) g) graph
        pure (graph, workflowLeafNodes, koreoEdges)
      | .resourceFunction id krm label managedResources => do
        let node : InflatedNode :=
          ⟨id, pickLabel label krm.name?, krm.kind, some krm, none⟩
        let graph := { graph with nodes := aset graph.nodes node.id node }
        let graph ←
          if includeResources then
            addResourceNodes gen graph node.id (managedResources.getD [])
          else pure graph
        pure (graph, workflowLeafNodes, koreoEdges)
      | .parent id krm =>
        let parentNodeId := "parent-" ++ id
        let node : InflatedNode :=
          ⟨parentNodeId, pickLabel none krm.name?, krm.kind, some krm, none⟩
        let graph := { graph with nodes := aset graph.nodes node.id node }
        let koreoEdges := replaceFirstSource koreoEdges id parentNodeId
        pure (graph, workflowLeafNodes, koreoEdges)
      | .workflow id krm label =>
        let node : InflatedNode := ⟨id, pickLabel label krm.name?, krm.kind, some krm, none⟩
        pure ({ graph with nodes := aset graph.nodes node.id node },
          workflowLeafNodes, koreoEdges)
      | .valueFunction id krm label =>
        let node : InflatedNode := ⟨id, pickLabel label krm.name?, krm.kind, some krm, none⟩
        pure ({ graph with nodes := aset graph.nodes node.id node },
          workflowLeafNodes, koreoEdges))
    (⟨[], []⟩, [], koreoGraph.edges)
  -- final edge pass: fan an edge sourced at a sub-workflow node out from the
  -- sub-workflow's leaf nodes; copy every other edge unchanged
  pure (koreoEdges.foldl
    (fun g kedge =>
      match aget? workflowLeafNodes kedge.source with
      | some leafNodes => leafNodes.foldl
          (fun g leafNodeId =>
            let edge := createEdgeIds leafNodeId kedge.target .stepToStep
            { g with edges := aset g.edges edge.id edge }) g
      | none => { g with edges := aset g.edges kedge.id kedge }) graph)

/-- `convertGraphExpanded`, tied off with the same recursion-depth fuel scheme
as the builder (the transform recurses through nested sub-workflow graphs). -/
def convertGraphExpanded (gen : Nat → String) : Nat → GraphV → Bool → Build InflDeduped
  | 0 => fun _ _ => throw "sub-workflow recursion fuel exhausted"
  | fuel + 1 => convertGraphExpandedF gen (convertGraphExpanded gen fuel)

/-- `inflateGraph(koreoGraph, includeResources, expanded?)`. -/
def inflateGraph (gen : Nat → String) (fuel : Nat) (koreoGraph : GraphV)
    (includeResources : Bool) (expanded : Bool) : Build InflatedGraph := do
  let dedupedGraph ←
    if expanded then convertGraphExpanded gen fuel koreoGraph includeResources
    else convertGraph gen koreoGraph includeResources
  pure ⟨avalues dedupedGraph.nodes, avalues dedupedGraph.edges⟩

/-- `getInflatedWorkflowGraph(namespace, workflowId, expanded?)`. -/
def getInflatedWorkflowGraph (env : Env) (gen : Nat → String) (fuel : Nat)
    (ns workflowId : String) (expanded : Bool) : Build InflatedGraph := do
  let graph ← getWorkflowGraph env gen fuel ns workflowId none
  inflateGraph gen fuel graph false expanded

/-- `getInflatedWorkflowInstanceGraph(namespace, workflowId, instanceId,
expanded?)`. -/
def getInflatedWorkflowInstanceGraph (env : Env) (gen : Nat → String) (fuel : Nat)
    (ns workflowId instanceId : String) (expanded : Bool) : Build InflatedGraph := do
  let graph ← getWorkflowGraph env gen fuel ns workflowId (some instanceId)
  inflateGraph gen fuel graph true expanded

/-! ## Scan lemmas: the source's `processValue` traversal is the spec's
`findReferences` followed by one pass of edge additions -/

mutual
theorem processValue_spec (stepNode : KNode) (stepNodes : List (String × String))
    (v : JsValue) (st : ScanState) :
    processValue stepNode stepNodes v st =
      (specFindReferences v).foldl (addDependencyEdge stepNode stepNodes) st := by
  cases v with
  | str s =>
    rw [processValue, specFindReferences]
    by_cases h : exprMarked s = true
    · rw [if_pos h, if_pos h]
    · rw [if_neg h, if_neg h, List.foldl_nil]
  | arr items =>
    rw [processValue, specFindReferences]
    exact processValueItems_spec stepNode stepNodes items st
  | obj fields =>
    rw [processValue, specFindReferences]
    exact processValueFields_spec stepNode stepNodes fields st
  | num n => rfl
  | bool b => rfl
  | null => rfl
theorem processValueItems_spec (stepNode : KNode) (stepNodes : List (String × String))
    (items : List JsValue) (st : ScanState) :
    processValueItems stepNode stepNodes items st =
      (specFindReferencesItems items).foldl (addDependencyEdge stepNode stepNodes) st := by
  cases items with
  | nil => rfl
  | cons v vs =>
    rw [processValueItems, specFindReferencesItems, List.foldl_append,
      processValue_spec stepNode stepNodes v st,
      processValueItems_spec stepNode stepNodes vs]
theorem processValueFields_spec (stepNode : KNode) (stepNodes : List (String × String))
    (fields : List (String × JsValue)) (st : ScanState) :
    processValueFields stepNode stepNodes fields st =
      (specFindReferencesFields fields).foldl (addDependencyEdge stepNode stepNodes) st := by
  cases fields with
  | nil => rfl
  | cons p fs =>
    obtain ⟨k, v⟩ := p
    rw [processValueFields, specFindReferencesFields, List.foldl_append,
      processValue_spec stepNode stepNodes v st,
      processValueFields_spec stepNode stepNodes fs]
end

/-- Folding the per-label edge action sets `foundDependency` exactly when at
least one label was found. -/
theorem foldl_addDependencyEdge_found (stepNode : KNode)
    (stepNodes : List (String × String)) (ls : List String) :
    ∀ st : ScanState,
      ((ls.foldl (addDependencyEdge stepNode stepNodes) st).foundDependency) =
        (st.foundDependency || !ls.isEmpty) := by
  induction ls with
  | nil => intro st; simp
  | cons x xs ih =>
    intro st
    rw [List.foldl_cons, ih]
    simp [addDependencyEdge]

/-- The fold leaves the graph fields untouched by the final flag write, so the
graph and dependent-set components factor through the same fold. -/
theorem findAndAddStepDependencies_spec (value : JsValue) (stepNode : KNode)
    (stepNodes : List (String × String)) (graph : DedupedGraph) (deps : List String) :
    findAndAddStepDependencies value stepNode stepNodes graph deps =
      (let st := (specFindReferences value).foldl (addDependencyEdge stepNode stepNodes)
        ⟨graph, deps, false⟩
      (st.graph, st.nodesWithDependents, !(specFindReferences value).isEmpty)) := by
  unfold findAndAddStepDependencies
  rw [processValue_spec]
  simp [foldl_addDependencyEdge_found]

/-! ## Projections used to state concrete evaluations -/

def GraphV.nodeIds (g : GraphV) : List String := g.nodes.map KNode.id

def GraphV.nodeLabels (g : GraphV) : List (Option String) := g.nodes.map KNode.label

/-- The graph of a completed builder run (an erroring run projects to the
empty graph; every theorem below that uses this projection asserts a non-empty
result, so an exception cannot satisfy it). -/
def graphRun (r : Except String (GraphV × Nat)) : GraphV :=
  match r with
  | .ok (g, _) => g
  | .error _ => .mk [] [] []

/-- Whether a builder run surfaced an exception. -/
def graphRunThrew (r : Except String (GraphV × Nat)) : Bool :=
  match r with
  | .error _ => true
  | .ok _ => false

def buildRunLeaves (r : Except String ((GraphV × List String) × Nat)) : List String :=
  match r with
  | .ok ((_, leaves), _) => leaves
  | .error _ => []

def inflRun (r : Except String (InflatedGraph × Nat)) : InflatedGraph :=
  match r with
  | .ok (g, _) => g
  | .error _ => ⟨[], []⟩

def inflDedupRun (r : Except String (InflDeduped × Nat)) : InflDeduped :=
  match r with
  | .ok (g, _) => g
  | .error _ => ⟨[], []⟩

/-! ## Concrete scenarios -/

/-- A fixed uuid token generator standing for one run's random draws. -/
def gen0 : Nat → String := fun n => "uuid-" ++ toString n

def emptyEnv : Env :=
  ⟨fun _ _ => none, fun _ _ => none, fun _ _ => none, fun _ _ => none,
    fun _ _ _ _ => none, fun _ => none⟩

def lookup2 {α : Type} (table : List (String × String × α)) :
    String → String → Option α := fun a b =>
  (table.find? (fun e => e.1 == a && e.2.1 == b)).map (·.2.2)

def mkKrm (kind uid name : String) : Krm := ⟨some kind, some ⟨some uid, some name⟩⟩

def fnStep (label name : String) (inputs : Option JsValue) : Step :=
  ⟨label, some ⟨"ValueFunction", name⟩, none, none, inputs⟩

/- C1: a workflow whose only step references a sub-workflow that does not
exist in the backing store. -/

def wfC1 : Workflow :=
  ⟨some ⟨some "wfu-main", some "main"⟩,
    ⟨none, [⟨"s1", some ⟨"Workflow", "missing"⟩, none, none, none⟩]⟩⟩

def envC1 : Env := { emptyEnv with workflows := lookup2 [("ns", "main", wfC1)] }

/- C2: a workflow declaring a config step (with no explicit label) whose
referenced function exists; the step list is parameterized so the theorems can
quantify over the declared config step. -/

def cfgStepC2 : ConfigStep := ⟨none, ⟨"ValueFunction", "cfg-fn"⟩, none⟩

def wfC2 (cs : Option ConfigStep) : Workflow :=
  ⟨some ⟨some "wfu-c2", some "main"⟩, ⟨cs, [fnStep "a" "fn-a" none]⟩⟩

def envC2 (cs : Option ConfigStep) : Env :=
  { emptyEnv with
    workflows := lookup2 [("ns", "main", wfC2 cs)],
    valueFunctions := lookup2
      [("ns", "fn-a", mkKrm "ValueFunction" "vfu-a" "fn-a"),
       ("ns", "cfg-fn", mkKrm "ValueFunction" "vfu-cfg" "cfg-fn")] }

def wfC2only : Workflow := ⟨some ⟨some "wfu-c2", some "main"⟩, ⟨some cfgStepC2, []⟩⟩

def envC2only : Env :=
  { envC2 none with workflows := lookup2 [("ns", "main", wfC2only)] }

/- C3: a step whose only expression references a label absent from the label
index. -/

def wfC3 : Workflow :=
  ⟨some ⟨some "wfu-c3", some "main"⟩,
    ⟨none, [fnStep "a" "fn-a" (some (.obj [("x", .str "=steps.ghost.val")]))]⟩⟩

def envC3 : Env :=
  { emptyEnv with
    workflows := lookup2 [("ns", "main", wfC3)],
    valueFunctions := lookup2 [("ns", "fn-a", mkKrm "ValueFunction" "vfu-a" "fn-a")] }

/- C4: one step whose single expression string references two other steps, and
one step with no expression-prefixed strings in any input. -/

def wfC4 : Workflow :=
  ⟨some ⟨some "wfu-c4", some "main"⟩,
    ⟨none,
      [fnStep "a" "fn-a" none,
       fnStep "b" "fn-b" none,
       fnStep "c" "fn-c" (some (.obj [("x", .str "=steps.a.value + steps.b.value")])),
       fnStep "d" "fn-d" (some (.obj [("x", .str "plain string"), ("n", .num 3)]))]⟩⟩

def envC4 : Env :=
  { emptyEnv with
    workflows := lookup2 [("ns", "main", wfC4)],
    valueFunctions := lookup2
      [("ns", "fn-a", mkKrm "ValueFunction" "vfu-a" "fn-a"),
       ("ns", "fn-b", mkKrm "ValueFunction" "vfu-b" "fn-b"),
       ("ns", "fn-c", mkKrm "ValueFunction" "vfu-c" "fn-c"),
       ("ns", "fn-d", mkKrm "ValueFunction" "vfu-d" "fn-d")] }

/- C5: sub-workflow `subwf` with steps A, B (depending on A), C; parent
workflow `main` embedding it as step s1 with a consumer step s2. -/

def wfSubC5 : Workflow :=
  ⟨some ⟨some "wfu-sub", some "subwf"⟩,
    ⟨none,
      [fnStep "A" "fn-A" none,
       fnStep "B" "fn-B" (some (.obj [("x", .str "=steps.A.out")])),
       fnStep "C" "fn-C" none]⟩⟩

def wfMainC5 : Workflow :=
  ⟨some ⟨some "wfu-main5", some "main"⟩,
    ⟨none,
      [⟨"s1", some ⟨"Workflow", "subwf"⟩, none, none, none⟩,
       fnStep "s2" "fn-s2" (some (.obj [("y", .str "=steps.s1.res")]))]⟩⟩

def envC5 : Env :=
  { emptyEnv with
    workflows := lookup2 [("ns", "main", wfMainC5), ("ns", "subwf", wfSubC5)],
    valueFunctions := lookup2
      [("ns", "fn-A", mkKrm "ValueFunction" "vfu-A" "fn-A"),
       ("ns", "fn-B", mkKrm "ValueFunction" "vfu-B" "fn-B"),
       ("ns", "fn-C", mkKrm "ValueFunction" "vfu-C" "fn-C"),
       ("ns", "fn-s2", mkKrm "ValueFunction" "vfu-s2" "fn-s2")] }

/- C6: an internal graph holding a RefSwitch with two Function cases and one
sub-workflow case that has two leaf nodes, with one edge into and one edge out
of the switch. -/

def rsIdC6 : String := "switch-f1-f2-sub-swU"

def subGraphC6 : GraphV :=
  .mk [.workflow "swU" (mkKrm "Workflow" "swU" "innerwf") (some "sw"),
       .valueFunction "L1" (mkKrm "ValueFunction" "L1" "fn-l1") (some "l1"),
       .valueFunction "L2" (mkKrm "ValueFunction" "L2" "fn-l2") (some "l2")]
      [createEdgeIds "swU" "L1" .workflowToStep, createEdgeIds "swU" "L2" .workflowToStep]
      []

def subNodeC6 : KNode := .subWorkflow "sub-swU" subGraphC6 ["L1", "L2"]

def rsNodeC6 : KNode :=
  .refSwitch rsIdC6 "=steps.x.sel"
    [("c1", .valueFunction "f1" (mkKrm "ValueFunction" "f1" "fn-1") (some "sw")),
     ("c2", .valueFunction "f2" (mkKrm "ValueFunction" "f2" "fn-2") (some "sw")),
     ("c3", subNodeC6)]
    [] (some "sw")

def graphC6 : GraphV :=
  .mk [.workflow "W" (mkKrm "Workflow" "W" "outer") none, rsNodeC6,
       .valueFunction "D" (mkKrm "ValueFunction" "D" "fn-d") (some "d")]
      [createEdgeIds "W" rsIdC6 .workflowToStep, createEdgeIds rsIdC6 "D" .stepToStep]
      []

/- C7: a workflow object carrying no uid, built under two different uuid
generators (two runs of the same request with identical backing data). -/

def wfNoUid : Workflow := ⟨some ⟨none, some "main"⟩, ⟨none, []⟩⟩

def envC7 : Env := { emptyEnv with workflows := lookup2 [("ns", "main", wfNoUid)] }

def genA : Nat → String := fun n => "A" ++ toString n

def genB : Nat → String := fun n => "B" ++ toString n

/- C8: a workflow with a RefSwitch step and a downstream consumer, taken
through the full pipeline in expanded mode. -/

def wfC8 : Workflow :=
  ⟨some ⟨some "wfu-c8", some "main"⟩,
    ⟨none,
      [⟨"sw", none, some ⟨"=cfg", some [⟨"one", "ValueFunction", "fn-1"⟩]⟩, none, none⟩,
       fnStep "d" "fn-d" (some (.obj [("x", .str "=steps.sw.val")]))]⟩⟩

def envC8 : Env :=
  { emptyEnv with
    workflows := lookup2 [("ns", "main", wfC8)],
    valueFunctions := lookup2
      [("ns", "fn-1", mkKrm "ValueFunction" "vfu-1" "fn-1"),
       ("ns", "fn-d", mkKrm "ValueFunction" "vfu-d" "fn-d")] }

/- C10: a `JSON.parse` model for witnesses (parses exactly the string "5"). -/

def jsonParseC10 : String → Option JsValue :=
  fun s => if s == "5" then some (.num 5) else none

/-! ## Monad-run helpers -/

/-- Running a bound computation: run the first computation, then feed its
value and state into the continuation. -/
theorem build_bind_run {α β : Type} (x : Build α) (g : α → Build β) (n : Nat) :
    (x >>= g).run n =
      Except.bind (x.run n) (fun p => (g p.1).run p.2) := rfl

/-! ## Claim theorems -/

/-- C1: the spec claims absence of a fetched object is never surfaced as an
exception, and in particular that a step referencing a non-existent
sub-workflow lets construction complete with that step contributing no node.
On the concrete workflow `main`, whose only step references the missing
sub-workflow `missing`, the builder instead surfaces a TypeError to the
caller: the not-found sub-workflow produces an empty node list, the
`if (!workflowGraph.nodes)` guard never fires (an array is truthy in JS even
when empty), and `createSubWorkflowNode` reads `.krm` of
`workflowGraph.nodes[0]`, which is `undefined`. -/
theorem claim_C1 :
    (getWorkflowGraph envC1 gen0 3 "ns" "main" none).run 0 =
      Except.error "TypeError: cannot read properties of undefined (reading krm)" := rfl

/-- C2 counterexample: a workflow declaring a config step (whose referenced
function is available in the environment) and no other steps builds to a graph
containing only the Workflow node — no node is created for the config step,
refuting the claim that the builder processes a declared config step like any
other step. -/
theorem claim_C2_counterexample :
    wfC2only.spec.configStep.isSome = true ∧
    (envC2only.valueFunctions "ns" "cfg-fn").isSome = true ∧
    (graphRun ((getWorkflowGraph envC2only gen0 3 "ns" "main" none).run 0)).nodeIds =
      ["wfu-c2"] := by decide

/-- C2 (amended): the builder ignores `workflow.spec.configStep` entirely —
whatever config step is declared, only `workflow.spec.steps` contribute nodes,
and no node is registered under the label "config": the concrete build yields
exactly the Workflow node and the node of the single declared step `a`, for
every declared config step. -/
theorem claim_C2 (cs : ConfigStep) :
    (graphRun ((getWorkflowGraph (envC2 (some cs)) gen0 3 "ns" "main" none).run 0)).nodeIds =
      ["wfu-c2", "vfu-a"] ∧
    (graphRun ((getWorkflowGraph (envC2 (some cs)) gen0 3 "ns" "main" none).run 0)).nodeLabels =
      [none, some "a"] := by
  obtain ⟨l, r, i⟩ := cs
  exact ⟨rfl, rfl⟩

/-- C3 counterexample: the workflow `main` has a single step `a` whose only
input expression references the absent label `ghost`. The scan emits no
`StepToStep` edge, yet no `WorkflowToStep` edge is emitted either (the edge
set of the delivered graph is empty although step `a`'s node exists),
refuting the claim that a step with no emitted dependency edges always gets
exactly one `WorkflowToStep` edge. -/
theorem claim_C3_counterexample :
    (graphRun ((getWorkflowGraph envC3 gen0 3 "ns" "main" none).run 0)).nodeIds =
      ["wfu-c3", "vfu-a"] ∧
    (graphRun ((getWorkflowGraph envC3 gen0 3 "ns" "main" none).run 0)).edges = [] := by
  decide

/-- C4: dependency scanning. (1) The source's recursive scan-and-add is
exactly the spec's `findReferences` (every `steps.<label>` occurrence in every
expression-marked string scalar anywhere in the nested value, in traversal
order) followed by one pass of per-label edge additions, with the returned
flag true exactly when some occurrence was found. (2) On the concrete
workflow, step `c` with the single input `"=steps.a.value + steps.b.value"`
receives exactly the two `StepToStep` edges from `a`'s and `b`'s nodes, and
step `d`, with no expression-marked strings in any input, receives zero
`StepToStep` edges and exactly one `WorkflowToStep` edge. -/
theorem claim_C4 :
    (∀ (value : JsValue) (stepNode : KNode) (stepNodes : List (String × String))
      (graph : DedupedGraph) (deps : List String),
      findAndAddStepDependencies value stepNode stepNodes graph deps =
        (let st := (specFindReferences value).foldl (addDependencyEdge stepNode stepNodes)
          ⟨graph, deps, false⟩
        (st.graph, st.nodesWithDependents, !(specFindReferences value).isEmpty))) ∧
    ((graphRun ((getWorkflowGraph envC4 gen0 3 "ns" "main" none).run 0)).edges.filter
        (fun e => e.target == "vfu-c") =
      [⟨"vfu-a:vfu-c", "vfu-a", "vfu-c", .stepToStep⟩,
       ⟨"vfu-b:vfu-c", "vfu-b", "vfu-c", .stepToStep⟩]) ∧
    ((graphRun ((getWorkflowGraph envC4 gen0 3 "ns" "main" none).run 0)).edges.filter
        (fun e => e.target == "vfu-d") =
      [⟨"wfu-c4:vfu-d", "wfu-c4", "vfu-d", .workflowToStep⟩]) :=
  ⟨findAndAddStepDependencies_spec, by decide, by decide⟩

set_option maxHeartbeats 4000000 in
/-- C5: leaf sets and sub-workflow fan-out. In the sub-workflow `subwf` with
steps A, B (whose inputs reference `steps.A`) and C (no references), the
returned leaf set is exactly B's and C's node ids (all registered step node
ids minus those marked as having a dependent). Embedding `subwf` as step `s1`
of `main` with a consumer step `s2`: the expanded presentation fans exactly
two `StepToStep` edges into `s2` (one from each leaf), while the collapsed
presentation has exactly one edge into `s2`, from the single collapsed
sub-workflow node. -/
theorem claim_C5 :
    buildRunLeaves
        ((getWorkflowGraphWithLeafNodes envC5 gen0 4 "ns" "subwf" none none none).run 0) =
      ["vfu-B", "vfu-C"] ∧
    ((inflRun ((getInflatedWorkflowGraph envC5 gen0 6 "ns" "main" true).run 0)).edges.filter
        (fun e => e.target == "vfu-s2") =
      [⟨"vfu-B:vfu-s2", "vfu-B", "vfu-s2", .stepToStep⟩,
       ⟨"vfu-C:vfu-s2", "vfu-C", "vfu-s2", .stepToStep⟩]) ∧
    ((inflRun ((getInflatedWorkflowGraph envC5 gen0 6 "ns" "main" false).run 0)).edges.filter
        (fun e => e.target == "vfu-s2") =
      [⟨"sub-wfu-sub:vfu-s2", "sub-wfu-sub", "vfu-s2", .stepToStep⟩]) := by
  refine ⟨by decide, by decide, by decide⟩

set_option maxHeartbeats 4000000 in
/-- C6: expanded RefSwitch rewriting. For the internal graph holding a
RefSwitch with two Function cases and one sub-workflow case with two leaf
nodes, plus one edge into and one edge out of the switch: the expanded
transform emits exactly three `StepToStep` edges from the switch-in junction
(to the two function case nodes and the sub-workflow case's entry node) and
exactly four `StepToStep` edges into the switch-out junction (one from each
function case node and one from each of the two leaf nodes); the original
edge into the switch is redirected to target switch-in and the original edge
out of the switch is redirected to source switch-out. -/
theorem claim_C6 :
    ((avalues (inflDedupRun ((convertGraphExpanded gen0 3 graphC6 false).run 0)).edges).filter
        (fun e => e.source == "switchIn-" ++ rsIdC6) =
      [⟨"switchIn-switch-f1-f2-sub-swU:f1", "switchIn-switch-f1-f2-sub-swU", "f1", .stepToStep⟩,
       ⟨"switchIn-switch-f1-f2-sub-swU:f2", "switchIn-switch-f1-f2-sub-swU", "f2", .stepToStep⟩,
       ⟨"switchIn-switch-f1-f2-sub-swU:swU", "switchIn-switch-f1-f2-sub-swU", "swU", .stepToStep⟩]) ∧
    ((avalues (inflDedupRun ((convertGraphExpanded gen0 3 graphC6 false).run 0)).edges).filter
        (fun e => e.target == "switchOut-" ++ rsIdC6) =
      [⟨"f1:switchOut-switch-f1-f2-sub-swU", "f1", "switchOut-switch-f1-f2-sub-swU", .stepToStep⟩,
       ⟨"f2:switchOut-switch-f1-f2-sub-swU", "f2", "switchOut-switch-f1-f2-sub-swU", .stepToStep⟩,
       ⟨"L1:switchOut-switch-f1-f2-sub-swU", "L1", "switchOut-switch-f1-f2-sub-swU", .stepToStep⟩,
       ⟨"L2:switchOut-switch-f1-f2-sub-swU", "L2", "switchOut-switch-f1-f2-sub-swU", .stepToStep⟩]) ∧
    ((avalues (inflDedupRun ((convertGraphExpanded gen0 3 graphC6 false).run 0)).edges).filter
        (fun e => e.id == "W:" ++ rsIdC6) =
      [⟨"W:switch-f1-f2-sub-swU", "W", "switchIn-switch-f1-f2-sub-swU", .workflowToStep⟩]) ∧
    ((avalues (inflDedupRun ((convertGraphExpanded gen0 3 graphC6 false).run 0)).edges).filter
        (fun e => e.id == rsIdC6 ++ ":D") =
      [⟨"switch-f1-f2-sub-swU:D", "switchOut-switch-f1-f2-sub-swU", "D", .stepToStep⟩]) := by
  refine ⟨by decide, by decide, by decide, by decide⟩

/-- C7 counterexample: the workflow object of `main` carries no uid, so the
builder mints a fresh token for its node id; two runs against identical
backing data (differing only in the random draws) yield different node id
sets, refuting the unconditional idempotence claim. -/
theorem claim_C7_counterexample :
    (graphRun ((getWorkflowGraph envC7 genA 2 "ns" "main" none).run 0)).nodeIds = ["A0"] ∧
    (graphRun ((getWorkflowGraph envC7 genB 2 "ns" "main" none).run 0)).nodeIds = ["B0"] ∧
    ¬(["A0"] : List String) = ["B0"] := by decide

set_option maxHeartbeats 4000000 in
/-- C8 counterexample: taking the workflow `main` (a RefSwitch step `sw` and a
consumer step `d` depending on it) through the full pipeline in expanded mode,
the delivered graph contains the edge with id `switch-vfu-1:vfu-d` whose
source was redirected to the switch-out junction without refreshing the id;
its id is not `source:target`, refuting the claim that every delivered edge
satisfies `id = source:target`. -/
theorem claim_C8_counterexample :
    ((inflRun ((getInflatedWorkflowGraph envC8 gen0 4 "ns" "main" true).run 0)).edges.filter
        (fun e => e.id == "switch-vfu-1:vfu-d") =
      [⟨"switch-vfu-1:vfu-d", "switchOut-switch-vfu-1", "vfu-d", .stepToStep⟩]) ∧
    ¬("switch-vfu-1:vfu-d" = "switchOut-switch-vfu-1" ++ ":" ++ "vfu-d") := by decide

/-- Reduction of `parseManagedResources` on a parent input to the annotation
lookup. -/
theorem parseManagedResources_inr (jsonParse : String → Option JsValue)
    (parent : WorkflowParent) :
    parseManagedResources jsonParse (.inr parent) =
      match (parent.metadata.annots.find? (fun p => p.1 == managedResourcesKey)).map (·.2) with
      | none => emptyManagedResources
      | some s =>
        if s == "" then emptyManagedResources
        else
          match jsonParse s with
          | some parsed => parsed
          | none => emptyManagedResources := rfl

/-- C10: `parseManagedResources` returns any successfully parsed JSON value
unchanged — with no validation of the `ManagedResources` shape (an arbitrary
`JsValue` is handed back to the caller) — and falls back to the empty value
`{workflow: "", resources: {}}`, without throwing, when the annotation is
missing, empty, or fails to parse. -/
theorem claim_C10 :
    (∀ (jsonParse : String → Option JsValue) (s : String) (v : JsValue),
      ¬s = "" → jsonParse s = some v →
      parseManagedResources jsonParse (.inl s) = v) ∧
    (∀ (jsonParse : String → Option JsValue) (s : String),
      s = "" ∨ jsonParse s = none →
      parseManagedResources jsonParse (.inl s) = emptyManagedResources) ∧
    (∀ (jsonParse : String → Option JsValue) (parent : WorkflowParent),
      parent.metadata.annots.find? (fun p => p.1 == managedResourcesKey) = none →
      parseManagedResources jsonParse (.inr parent) = emptyManagedResources) ∧
    (∀ (jsonParse : String → Option JsValue) (parent : WorkflowParent)
      (kv : String × String) (v : JsValue),
      parent.metadata.annots.find? (fun p => p.1 == managedResourcesKey) = some kv →
      ¬kv.2 = "" → jsonParse kv.2 = some v →
      parseManagedResources jsonParse (.inr parent) = v) := by
  refine ⟨?_, ?_, ?_, ?_⟩
  · intro jsonParse s v hs hv
    unfold parseManagedResources
    simp only [beq_iff_eq]
    rw [if_neg hs, hv]
  · intro jsonParse s h
    unfold parseManagedResources
    rcases h with h | h
    · subst h; rfl
    · simp only [beq_iff_eq]
      by_cases hs : s = ""
      · rw [if_pos hs]
      · rw [if_neg hs, h]
  · intro jsonParse parent h
    rw [parseManagedResources_inr, h]
    rfl
  · intro jsonParse parent kv v hfind hne hv
    have hcond : ¬((kv.2 == "") = true) := by simp [hne]
    rw [parseManagedResources_inr, hfind]
    show (if (kv.2 == "") = true then emptyManagedResources
      else
        match jsonParse kv.2 with
        | some parsed => parsed
        | none => emptyManagedResources) = v
    rw [if_neg hcond, hv]

/-- A not-found root workflow yields the empty graph and empty leaf set. -/
theorem wln_notFound (env : Env) (gen : Nat → String) (fuel : Nat)
    (ns workflowId : String) (stepLabel : Option String) (instanceId : Option String)
    (mr : Option JsValue) (n : Nat) (h : env.workflows ns workflowId = none) :
    (getWorkflowGraphWithLeafNodes env gen (fuel + 1) ns workflowId stepLabel
      instanceId mr).run n = Except.ok ((GraphV.mk [] [] [], []), n) := by
  show (getWorkflowGraphWithLeafNodesF env gen (getWorkflowGraphWithLeafNodes env gen fuel)
    ns workflowId stepLabel instanceId mr).run n = _
  unfold getWorkflowGraphWithLeafNodesF
  rw [h]
  rfl

/-- Inflating the empty graph yields the empty presentation graph in either
mode. -/
theorem inflate_empty (gen : Nat → String) (fuel : Nat)
    (includeResources expanded : Bool) (n : Nat) :
    (inflateGraph gen (fuel + 1) (.mk [] [] []) includeResources expanded).run n =
      Except.ok (⟨[], []⟩, n) := by
  cases expanded <;> rfl

/-- C9: requesting an inflated graph (in either mode) for a workflow id that
the environment does not know returns exactly the empty node list and empty
edge list, with no exception and no fresh-token draw. -/
theorem claim_C9 (env : Env) (gen : Nat → String) (fuel : Nat)
    (ns workflowId : String) (expanded : Bool) (n : Nat)
    (h : env.workflows ns workflowId = none) :
    (getInflatedWorkflowGraph env gen (fuel + 1) ns workflowId expanded).run n =
      Except.ok (⟨[], []⟩, n) := by
  unfold getInflatedWorkflowGraph getWorkflowGraph
  rw [build_bind_run, build_bind_run, wln_notFound env gen fuel ns workflowId none none none n h]
  exact inflate_empty gen fuel false expanded n

/-- C9 witness: the empty environment at a concrete id, in both modes. -/
theorem claim_C9_witness :
    (getInflatedWorkflowGraph emptyEnv gen0 1 "ns" "ghost" true).run 0 =
      Except.ok (⟨[], []⟩, 0) ∧
    (getInflatedWorkflowGraph emptyEnv gen0 1 "ns" "ghost" false).run 0 =
      Except.ok (⟨[], []⟩, 0) :=
  ⟨claim_C9 emptyEnv gen0 0 "ns" "ghost" true 0 rfl,
   claim_C9 emptyEnv gen0 0 "ns" "ghost" false 0 rfl⟩

/-- C10 witness: with a concrete parser, a parseable annotation (a bare JSON
number) is returned as-is, and a missing-equivalent (empty) or unparseable
annotation yields the empty value. -/
theorem claim_C10_witness :
    parseManagedResources jsonParseC10 (.inl "5") = JsValue.num 5 ∧
    parseManagedResources jsonParseC10 (.inl "") = emptyManagedResources ∧
    parseManagedResources jsonParseC10 (.inl "bad") = emptyManagedResources :=
  ⟨claim_C10.1 jsonParseC10 "5" (.num 5) (by decide) rfl,
   claim_C10.2.1 jsonParseC10 "" (Or.inl rfl),
   claim_C10.2.1 jsonParseC10 "bad" (Or.inr rfl)⟩

/-- All labels the dependency scan can find for one step: its `inputs`, then
`forEach.itemIn`, then `refSwitch.switchOn`, in the source's scan order. -/
def stepScanLabels (step : Step) : List String :=
  (match step.inputs with | some v => specFindReferences v | none => []) ++
  (match step.forEach with
    | some forEach => specFindReferences (.str forEach.itemIn)
    | none => []) ++
  (match step.refSwitch with
    | some refSwitch => specFindReferences (.str refSwitch.switchOn)
    | none => [])

/-- `addDependencyEdge` never reads the `foundDependency` flag: states agreeing
on graph and dependent set produce equal results. -/
theorem addDependencyEdge_eq_of (sn : KNode) (sns : List (String × String))
    (st st' : ScanState) (hg : st.graph = st'.graph)
    (hd : st.nodesWithDependents = st'.nodesWithDependents) (x : String) :
    addDependencyEdge sn sns st x = addDependencyEdge sn sns st' x := by
  obtain ⟨g, d, b⟩ := st
  obtain ⟨g', d', b'⟩ := st'
  simp only at hg hd
  cases hg
  cases hd
  unfold addDependencyEdge
  cases aget? sns x with
  | none => rfl
  | some pid =>
    dsimp only
    cases aget? g.nodes pid with
    | none => rfl
    | some pn => rfl

theorem foldl_addDependencyEdge_eq_of (sn : KNode) (sns : List (String × String))
    (ls : List String) : ∀ (st st' : ScanState), st.graph = st'.graph →
    st.nodesWithDependents = st'.nodesWithDependents →
    ((ls.foldl (addDependencyEdge sn sns) st).graph =
      (ls.foldl (addDependencyEdge sn sns) st').graph ∧
     (ls.foldl (addDependencyEdge sn sns) st).nodesWithDependents =
      (ls.foldl (addDependencyEdge sn sns) st').nodesWithDependents) := by
  induction ls with
  | nil => intro st st' hg hd; exact ⟨hg, hd⟩
  | cons x xs ih =>
    intro st st' hg hd
    rw [List.foldl_cons, List.foldl_cons, addDependencyEdge_eq_of sn sns st st' hg hd x]
    exact ⟨rfl, rfl⟩

theorem foldl_restart_graph (sn : KNode) (sns : List (String × String))
    (ls : List String) (st : ScanState) :
    (ls.foldl (addDependencyEdge sn sns)
      ⟨st.graph, st.nodesWithDependents, false⟩).graph =
      (ls.foldl (addDependencyEdge sn sns) st).graph :=
  (foldl_addDependencyEdge_eq_of sn sns ls ⟨st.graph, st.nodesWithDependents, false⟩ st
    rfl rfl).1

theorem foldl_restart_deps (sn : KNode) (sns : List (String × String))
    (ls : List String) (st : ScanState) :
    (ls.foldl (addDependencyEdge sn sns)
      ⟨st.graph, st.nodesWithDependents, false⟩).nodesWithDependents =
      (ls.foldl (addDependencyEdge sn sns) st).nodesWithDependents :=
  (foldl_addDependencyEdge_eq_of sn sns ls ⟨st.graph, st.nodesWithDependents, false⟩ st
    rfl rfl).2

theorem listIsEmpty_append (l1 l2 : List String) :
    (l1 ++ l2).isEmpty = (l1.isEmpty && l2.isEmpty) := by
  cases l1 <;> simp [List.isEmpty]

theorem if_or3_swap {α : Type} (e1 e2 e3 : Bool) (x y : α) :
    (if (!e3 || (!e2 || !e1)) = true then x else y) =
      if ((e1 && e2) && e3) = true then y else x := by
  cases e1 <;> cases e2 <;> cases e3 <;> rfl

theorem if_or2_swap {α : Type} (e1 e2 : Bool) (x y : α) :
    (if (!e2 || !e1) = true then x else y) = if (e1 && e2) = true then y else x := by
  cases e1 <;> cases e2 <;> rfl

theorem if_or1_swap {α : Type} (e : Bool) (x y : α) :
    (if (!e) = true then x else y) = if e = true then y else x := by
  cases e <;> rfl

/-- C3 (amended): for a registered step, the edge pass emits the single
`WorkflowToStep` edge exactly when the regex scan finds no `steps.<label>`
occurrence at all in the step's `inputs`, `forEach.itemIn` and
`refSwitch.switchOn` — not when it emits no `StepToStep` edge. A step whose
expressions reference only labels absent from the label index is marked as
having dependencies: it contributes no `StepToStep` edge and receives no
`WorkflowToStep` edge either (the graph and dependent set are exactly the
fold of the per-label edge action over the found labels). -/
theorem claim_C3 (workflowNode : KNode) (stepNodes : List (String × String))
    (graph : DedupedGraph) (deps : List String) (step : Step)
    (stepNodeId : String) (stepNode : KNode)
    (h1 : aget? stepNodes step.label = some stepNodeId)
    (h2 : aget? graph.nodes stepNodeId = some stepNode) :
    stepEdgeForStep workflowNode stepNodes (graph, deps) step =
      (let st := (stepScanLabels step).foldl (addDependencyEdge stepNode stepNodes)
        ⟨graph, deps, false⟩
      if (stepScanLabels step).isEmpty then
        (let edge := createEdge workflowNode stepNode .workflowToStep
        ({ st.graph with edges := aset st.graph.edges edge.id edge },
          st.nodesWithDependents))
      else (st.graph, st.nodesWithDependents)) := by
  obtain ⟨label, ref, refSwitch?, forEach?, inputs?⟩ := step
  unfold stepEdgeForStep stepScanLabels
  dsimp only at h1 ⊢
  rw [h1]
  dsimp only
  rw [h2]
  dsimp only
  cases inputs? <;> cases forEach? <;> cases refSwitch? <;>
    simp only [findAndAddStepDependencies_spec, foldl_addDependencyEdge_found,
      List.foldl_append, List.foldl_nil, List.append_nil, List.nil_append,
      listIsEmpty_append, Bool.or_false, Bool.false_or, Bool.not_and,
      List.isEmpty_nil, Bool.not_true, Bool.not_false]
  all_goals
    try simp only [foldl_restart_graph, foldl_restart_deps, if_or3_swap, if_or2_swap,
      if_or1_swap]
  all_goals rfl

/-- Witness data for the C3 theorem: a one-step graph whose step references
only the absent label `ghost`. -/
def wfNodeC3w : KNode := .workflow "w" (mkKrm "Workflow" "w" "main") none

def stepNodeC3w : KNode := .valueFunction "na" (mkKrm "ValueFunction" "na" "fn-a") (some "a")

def graphC3w : DedupedGraph := ⟨[("na", stepNodeC3w)], [], []⟩

def stepC3w : Step := fnStep "a" "fn-a" (some (.obj [("x", .str "=steps.ghost.v")]))

/-- C3 witness: the theorem applied at the concrete one-step graph. -/
theorem claim_C3_witness :
    stepEdgeForStep wfNodeC3w [("a", "na")] (graphC3w, []) stepC3w =
      (let st := (stepScanLabels stepC3w).foldl
        (addDependencyEdge stepNodeC3w [("a", "na")]) ⟨graphC3w, [], false⟩
      if (stepScanLabels stepC3w).isEmpty then
        (let edge := createEdge wfNodeC3w stepNodeC3w .workflowToStep
        ({ st.graph with edges := aset st.graph.edges edge.id edge },
          st.nodesWithDependents))
      else (st.graph, st.nodesWithDependents)) :=
  claim_C3 wfNodeC3w [("a", "na")] graphC3w [] stepC3w "na" stepNodeC3w rfl rfl

def KNode.isParent : KNode → Bool
  | .parent _ _ => true
  | _ => false

/-- The spec's edge invariant: the edge id is the dedup key `source:target`. -/
def edgeWf (e : KEdge) : Prop := e.id = e.source ++ ":" ++ e.target

/-- An invariant carried through a monadic fold whose steps preserve it. -/
theorem foldlM_run_inv {α β : Type} {P : β → Prop} (f : β → α → Build β) :
    ∀ (l : List α) (b : β) (n : Nat) (b' : β) (n' : Nat),
      (∀ x ∈ l, ∀ c m c' m', P c → (f c x).run m = .ok (c', m') → P c') →
      P b → (List.foldlM f b l).run n = .ok (b', n') → P b' := by
  intro l
  induction l with
  | nil =>
    intro b n b' n' _ hb h
    rw [List.foldlM] at h
    have h' : Except.ok (b, n) = Except.ok (b', n') := h
    cases h'
    exact hb
  | cons a l ih =>
    intro b n b' n' hf hb h
    rw [List.foldlM] at h
    rw [build_bind_run] at h
    rcases hrun : (f b a).run n with e | pair
    · rw [hrun] at h; cases h
    · rw [hrun] at h
      obtain ⟨c, m⟩ := pair
      exact ih c m b' n' (fun x hx => hf x (List.mem_cons_of_mem _ hx))
        (hf a (List.mem_cons_self _ _) b n c m hb hrun) h

/-- `aset` preserves a pointwise property when the inserted pair has it. -/
theorem aset_forall {α : Type} {P : String × α → Prop} (m : List (String × α))
    (k : String) (v : α) (hm : ∀ p ∈ m, P p) (hv : P (k, v)) :
    ∀ p ∈ aset m k v, P p := by
  unfold aset
  split
  · intro p hp
    obtain ⟨q, hq, hfq⟩ := List.mem_map.mp hp
    by_cases hqk : (q.1 == k) = true
    · rw [if_pos hqk] at hfq; exact hfq ▸ hv
    · rw [if_neg hqk] at hfq; exact hfq ▸ hm q hq
  · intro p hp
    rcases List.mem_append.mp hp with h | h
    · exact hm p h
    · rw [List.mem_singleton.mp h]; exact hv

theorem idOrUuid_run_ok (gen : Nat → String) (o : Option String) (n : Nat) :
    ∃ u n2, (idOrUuid gen o).run n = .ok (u, n2) := by
  cases o with
  | none => exact ⟨gen n, n + 1, rfl⟩
  | some u =>
    by_cases h : (u == "") = true
    · refine ⟨gen n, n + 1, ?_⟩
      show (if (u == "") = true then uuidv4 gen else pure u).run n = _
      rw [if_pos h]
      rfl
    · refine ⟨u, n, ?_⟩
      show (if (u == "") = true then uuidv4 gen else pure u).run n = _
      rw [if_neg h]
      rfl

/-- `addResourceNodes` preserves the edge invariant: all edges it inserts are
freshly created with `createEdgeIds`. -/
theorem addResourceNodes_edgeWf (gen : Nat → String)
    (mrs : List ManagedKubernetesResource) (pid : String)
    (g : InflDeduped) (n : Nat) (g' : InflDeduped) (n' : Nat)
    (hg : ∀ p ∈ g.edges, edgeWf p.2)
    (hrun : (addResourceNodes gen g pid mrs).run n = .ok (g', n')) :
    ∀ p ∈ g'.edges, edgeWf p.2 := by
  unfold addResourceNodes at hrun
  refine foldlM_run_inv (P := fun g : InflDeduped => ∀ p ∈ g.edges, edgeWf p.2)
    _ mrs g n g' n' ?_ hg hrun
  intro mr _ c m c' m' hc hstep
  rcases hmd : mr.resource.metadata with _ | md
  · rw [hmd] at hstep
    exact Except.noConfusion hstep
  · rw [hmd] at hstep
    rw [build_bind_run] at hstep
    obtain ⟨u, n2, hu⟩ := idOrUuid_run_ok gen md.uid m
    rw [hu] at hstep
    simp only [Except.bind] at hstep
    have hstep' : Except.ok ((⟨aset c.nodes u ⟨u, md.name, mr.resource.kind,
        some mr.resource, some ⟨true, mr.readonly⟩⟩,
      aset c.edges (createEdgeIds pid u .stepToResource).id
        (createEdgeIds pid u .stepToResource)⟩ : InflDeduped), n2) =
      Except.ok (c', m') := hstep
    rw [Except.ok.injEq, Prod.mk.injEq] at hstep'
    obtain ⟨h1, _⟩ := hstep'
    rw [← h1]
    exact aset_forall c.edges _ _ hc rfl

theorem build_pure_run {α : Type} (x : α) (n : Nat) (y : α) (n' : Nat)
    (h : (pure x : Build α).run n = .ok (y, n')) : y = x ∧ n' = n := by
  have h' : Except.ok (x, n) = Except.ok (y, n') := h
  rw [Except.ok.injEq, Prod.mk.injEq] at h'
  exact ⟨h'.1.symm, h'.2.symm⟩

theorem foldl_copyEdges_wf (ke : List KEdge) : ∀ (g : InflDeduped),
    (∀ p ∈ g.edges, edgeWf p.2) → (∀ e ∈ ke, edgeWf e) →
    ∀ p ∈ (ke.foldl (fun g e => { g with edges := aset g.edges e.id e }) g).edges,
      edgeWf p.2 := by
  induction ke with
  | nil => intro g hg _; exact hg
  | cons e es ih =>
    intro g hg hke
    rw [List.foldl_cons]
    refine ih _ ?_ (fun x hx => hke x (List.mem_cons_of_mem _ hx))
    intro p hp
    exact aset_forall (P := fun p => edgeWf p.2) g.edges e.id e hg
      (hke e (List.mem_cons_self _ _)) p hp

theorem ifResources_edgeWf (gen : Nat → String) (b : Bool) (g0 : InflDeduped)
    (pid : String) (mrs : List ManagedKubernetesResource) (ke : List KEdge)
    (n : Nat) (acc' : InflDeduped × List KEdge) (n' : Nat)
    (hg0 : ∀ p ∈ g0.edges, edgeWf p.2) (hke : ∀ e ∈ ke, edgeWf e)
    (hrun : ((if b = true then
        (addResourceNodes gen g0 pid mrs >>= fun y => pure (y, ke))
      else (pure g0 >>= fun y => pure (y, ke))) :
        Build (InflDeduped × List KEdge)).run n = .ok (acc', n')) :
    (∀ p ∈ acc'.1.edges, edgeWf p.2) ∧ (∀ e ∈ acc'.2, edgeWf e) := by
  cases b
  · rw [if_neg (by decide)] at hrun
    have h' : Except.ok ((g0, ke), n) = Except.ok (acc', n') := hrun
    rw [Except.ok.injEq, Prod.mk.injEq] at h'
    rw [← h'.1]
    exact ⟨hg0, hke⟩
  · rw [if_pos (by decide)] at hrun
    rw [build_bind_run] at hrun
    rcases hif : (addResourceNodes gen g0 pid mrs).run n with e | p
    · rw [hif] at hrun; exact Except.noConfusion hrun
    · rw [hif] at hrun
      obtain ⟨g2, n2⟩ := p
      simp only [Except.bind] at hrun
      obtain ⟨h1, _⟩ := build_pure_run _ _ _ _ hrun
      subst h1
      exact ⟨addResourceNodes_edgeWf gen mrs pid g0 n g2 n2 hg0 hif, hke⟩

theorem convertGraphNode_edgeWf (gen : Nat → String) (b : Bool) (knode : KNode)
    (hk : ¬knode.isParent = true) (acc : InflDeduped × List KEdge) (n : Nat)
    (acc' : InflDeduped × List KEdge) (n' : Nat)
    (hacc : (∀ p ∈ acc.1.edges, edgeWf p.2) ∧ (∀ e ∈ acc.2, edgeWf e))
    (hrun : (convertGraphNode gen b acc knode).run n = .ok (acc', n')) :
    (∀ p ∈ acc'.1.edges, edgeWf p.2) ∧ (∀ e ∈ acc'.2, edgeWf e) := by
  obtain ⟨graph, koreoEdges⟩ := acc
  obtain ⟨hg, hke⟩ := hacc
  cases knode with
  | workflow id krm label =>
    simp only [convertGraphNode] at hrun
    obtain ⟨h1, _⟩ := build_pure_run _ _ _ _ hrun
    subst h1
    exact ⟨hg, hke⟩
  | valueFunction id krm label =>
    simp only [convertGraphNode] at hrun
    obtain ⟨h1, _⟩ := build_pure_run _ _ _ _ hrun
    subst h1
    exact ⟨hg, hke⟩
  | parent id krm => exact absurd rfl hk
  | resourceFunction id krm label mrs =>
    simp only [convertGraphNode] at hrun
    exact ifResources_edgeWf gen b
      ⟨aset graph.nodes id ⟨id, pickLabel label krm.name?, krm.kind, some krm, none⟩,
        graph.edges⟩ id (mrs.getD []) koreoEdges n acc' n' hg hke hrun
  | refSwitch id so caseNodes mrs label =>
    simp only [convertGraphNode] at hrun
    exact ifResources_edgeWf gen b
      ⟨aset graph.nodes id ⟨id, pickLabel label (some "RefSwitch"), some "RefSwitch",
        none, none⟩, graph.edges⟩ id mrs koreoEdges n acc' n' hg hke hrun
  | subWorkflow id wfGraph leafIds =>
    simp only [convertGraphNode] at hrun
    rcases hhd : wfGraph.nodes.head? with _ | wn
    · rw [hhd] at hrun
      exact Except.noConfusion hrun
    · rw [hhd] at hrun
      dsimp only at hrun
      rcases hkrm : wn.krm? with _ | krm
      · rw [hkrm] at hrun
        exact Except.noConfusion hrun
      · rw [hkrm] at hrun
        dsimp only at hrun
        exact ifResources_edgeWf gen b
          ⟨aset graph.nodes id ⟨id, pickLabel wn.label krm.name?, some "Sub-Workflow",
            some krm, none⟩, graph.edges⟩ id wfGraph.managedResources koreoEdges n acc' n'
          hg hke hrun

/-- C8 (amended): every edge the engine creates is created with
`id = source:target` (both edge constructors), and the collapsed transform of
a Parent-free internal graph whose edges satisfy the invariant delivers only
edges satisfying it. The Parent re-namespacing and the expanded transform's
switch/sub-workflow redirections, however, rewrite `source`/`target` in place
without refreshing `id`, so redirected edges keep their pre-redirect id (see
the counterexample). -/
theorem claim_C8 :
    (∀ (source target : KNode) (ty : EdgeType), edgeWf (createEdge source target ty)) ∧
    (∀ (s t : String) (ty : EdgeType), edgeWf (createEdgeIds s t ty)) ∧
    (∀ (gen : Nat → String) (koreoGraph : GraphV) (includeResources : Bool)
      (n n' : Nat) (res : InflDeduped),
      (∀ node ∈ koreoGraph.nodes, ¬node.isParent = true) →
      (∀ e ∈ koreoGraph.edges, edgeWf e) →
      (convertGraph gen koreoGraph includeResources).run n = .ok (res, n') →
      ∀ p ∈ res.edges, edgeWf p.2) := by
  refine ⟨fun _ _ _ => rfl, fun _ _ _ => rfl, ?_⟩
  intro gen koreoGraph includeResources n n' res hnodes hedges hrun
  unfold convertGraph at hrun
  rw [build_bind_run] at hrun
  rcases hfold : (List.foldlM (convertGraphNode gen includeResources)
      ((⟨[], []⟩ : InflDeduped), koreoGraph.edges) koreoGraph.nodes).run n with e | p
  · rw [hfold] at hrun
    exact Except.noConfusion hrun
  · rw [hfold] at hrun
    obtain ⟨⟨g1, ke1⟩, n1⟩ := p
    simp only [Except.bind] at hrun
    obtain ⟨h1, _⟩ := build_pure_run _ _ _ _ hrun
    subst h1
    have hinv : (∀ p ∈ g1.edges, edgeWf p.2) ∧ (∀ e ∈ ke1, edgeWf e) := by
      refine foldlM_run_inv (P := fun acc : InflDeduped × List KEdge =>
        (∀ p ∈ acc.1.edges, edgeWf p.2) ∧ (∀ e ∈ acc.2, edgeWf e))
        _ koreoGraph.nodes (⟨[], []⟩, koreoGraph.edges) n (g1, ke1) n1 ?_ ?_ hfold
      · intro x hx c m c' m' hc hstep
        exact convertGraphNode_edgeWf gen includeResources x (hnodes x hx) c m c' m' hc hstep
      · refine ⟨?_, hedges⟩
        intro p hp
        exact absurd hp (List.not_mem_nil p)
    exact foldl_copyEdges_wf ke1 g1 hinv.1 hinv.2

/-- C8 witness: the amended invariant theorem applied to the concrete
Parent-free graph of the C6 scenario through the collapsed transform. -/
theorem claim_C8_witness :
    ∀ p ∈ (inflDedupRun ((convertGraph gen0 graphC6 false).run 0)).edges, edgeWf p.2 := by
  have hok : (convertGraph gen0 graphC6 false).run 0 =
      .ok (inflDedupRun ((convertGraph gen0 graphC6 false).run 0), 0) := by rfl
  exact claim_C8.2.2 gen0 graphC6 false 0 0 _ (by decide)
    (by intro e he; fin_cases he <;> rfl) hok

/-- A present, non-empty stable identifier (the `x || uuidv4()` guard is not
taken). -/
def stableId? (o : Option String) : Bool :=
  match o with
  | some u => !(u == "")
  | none => false

/-- Every object the environment can return carries a stable uid. -/
def UidComplete (env : Env) : Prop :=
  (∀ ns id w, env.workflows ns id = some w →
    stableId? (w.metadata.bind (·.uid)) = true) ∧
  (∀ w iid p, env.instanceOf w iid = some p → stableId? p.metadata.uid = true) ∧
  (∀ ns name k, env.valueFunctions ns name = some k → stableId? k.uid? = true) ∧
  (∀ ns name k, env.resourceFunctions ns name = some k → stableId? k.uid? = true)

/-- A node whose stored object, if any, carries a stable uid. -/
def GoodNode (node : KNode) : Prop :=
  ∀ k, node.krm? = some k → stableId? k.uid? = true

def GoodAssoc (nodes : List (String × KNode)) : Prop := ∀ p ∈ nodes, GoodNode p.2

def GoodGraph (g : GraphV) : Prop := ∀ node ∈ g.nodes, GoodNode node

theorem idOrUuid_of_stable (gen : Nat → String) (o : Option String)
    (h : stableId? o = true) : idOrUuid gen o = pure (o.getD "") := by
  cases o with
  | none => simp [stableId?] at h
  | some u =>
    simp only [stableId?] at h
    show (if (u == "") = true then uuidv4 gen else pure u) = pure ((some u).getD "")
    rw [if_neg (by simp_all)]
    rfl

theorem foldlM_congr_run {α β : Type} (f1 f2 : β → α → Build β) (l : List α)
    (hf : ∀ x ∈ l, ∀ b n, (f1 b x).run n = (f2 b x).run n) :
    ∀ (b : β) (n : Nat), (List.foldlM f1 b l).run n = (List.foldlM f2 b l).run n := by
  induction l with
  | nil => intro b n; rfl
  | cons a l ih =>
    intro b n
    rw [List.foldlM, List.foldlM, build_bind_run, build_bind_run,
      hf a (List.mem_cons_self a l) b n]
    rcases h2 : (f2 b a).run n with e | p
    · rfl
    · exact ih (fun x hx => hf x (List.mem_cons_of_mem _ hx)) p.1 p.2

theorem createWorkflowNode_stable (gen : Nat → String) (w : Workflow) (sl : Option String)
    (h : stableId? (workflowToKrm w).uid? = true) :
    createWorkflowNode gen w sl =
      pure (.workflow ((workflowToKrm w).uid?.getD "") (workflowToKrm w) sl) := by
  unfold createWorkflowNode
  rw [idOrUuid_of_stable gen _ h]
  rfl

theorem createValueFunctionNode_stable (gen : Nat → String) (k : Krm) (sl : Option String)
    (h : stableId? k.uid? = true) :
    createValueFunctionNode gen k sl = pure (.valueFunction (k.uid?.getD "") k sl) := by
  unfold createValueFunctionNode
  rw [idOrUuid_of_stable gen _ h]
  rfl

theorem createParentNode_stable (gen : Nat → String) (p : WorkflowParent)
    (h : stableId? (parentToKrm p).uid? = true) :
    createParentNode gen p = pure (.parent ((parentToKrm p).uid?.getD "") (parentToKrm p)) := by
  unfold createParentNode
  rw [idOrUuid_of_stable gen _ h]
  rfl

theorem getValueFunctionNode_stable (env : Env) (HE : UidComplete env)
    (gen1 gen2 : Nat → String) (ns name sl : String) :
    getValueFunctionNode env gen1 ns name sl = getValueFunctionNode env gen2 ns name sl := by
  unfold getValueFunctionNode
  cases hk : env.valueFunctions ns name with
  | none => rfl
  | some k =>
    dsimp only
    rw [createValueFunctionNode_stable gen1 k (some sl) (HE.2.2.1 ns name k hk),
      createValueFunctionNode_stable gen2 k (some sl) (HE.2.2.1 ns name k hk)]

theorem getResourceFunctionNode_stable (env : Env) (HE : UidComplete env)
    (gen1 gen2 : Nat → String) (ns name sl : String) (mr : Option (List JsValue)) :
    getResourceFunctionNode env gen1 ns name sl mr =
      getResourceFunctionNode env gen2 ns name sl mr := by
  unfold getResourceFunctionNode
  cases hk : env.resourceFunctions ns name with
  | none => rfl
  | some k =>
    dsimp only
    rw [idOrUuid_of_stable gen1 _ (HE.2.2.2 ns name k hk),
      idOrUuid_of_stable gen2 _ (HE.2.2.2 ns name k hk)]

/-- Any node returned by `getValueFunctionNode` or `getResourceFunctionNode`
stores the fetched object, which is uid-stable under a uid-complete
environment. -/
theorem getValueFunctionNode_good (env : Env) (HE : UidComplete env)
    (gen : Nat → String) (ns name sl : String) (n : Nat) (node : KNode) (n' : Nat)
    (h : (getValueFunctionNode env gen ns name sl).run n = .ok (some node, n')) :
    GoodNode node := by
  unfold getValueFunctionNode at h
  cases hk : env.valueFunctions ns name with
  | none =>
    rw [hk] at h
    obtain ⟨h1, _⟩ := build_pure_run _ _ _ _ h
    cases h1
  | some k =>
    rw [hk] at h
    dsimp only at h
    rw [createValueFunctionNode_stable gen k (some sl) (HE.2.2.1 ns name k hk)] at h
    obtain ⟨h1, _⟩ := build_pure_run _ _ _ _ h
    cases h1
    intro k' hk'
    cases hk'
    exact HE.2.2.1 ns name k hk

theorem getResourceFunctionNode_good (env : Env) (HE : UidComplete env)
    (gen : Nat → String) (ns name sl : String) (mr : Option (List JsValue))
    (n : Nat) (node : KNode) (n' : Nat)
    (h : (getResourceFunctionNode env gen ns name sl mr).run n = .ok (some node, n')) :
    GoodNode node := by
  unfold getResourceFunctionNode at h
  cases hk : env.resourceFunctions ns name with
  | none =>
    rw [hk] at h
    obtain ⟨h1, _⟩ := build_pure_run _ _ _ _ h
    cases h1
  | some k =>
    rw [hk] at h
    dsimp only at h
    rw [idOrUuid_of_stable gen _ (HE.2.2.2 ns name k hk)] at h
    obtain ⟨h1, _⟩ := build_pure_run _ _ _ _ h
    cases h1
    intro k' hk'
    cases hk'
    exact HE.2.2.2 ns name k hk

/-- Pointwise equality of two recursion knots' runs. -/
def RecEq (r1 r2 : WLNFun) : Prop :=
  ∀ ns id sl iid mr n, (r1 ns id sl iid mr).run n = (r2 ns id sl iid mr).run n

/-- Every graph a recursion knot can deliver has uid-stable stored objects. -/
def RecGood (r : WLNFun) : Prop :=
  ∀ ns id sl iid mr n g ls n',
    (r ns id sl iid mr).run n = .ok ((g, ls), n') → GoodGraph g

theorem except_bind_ok {ε α β : Type} (x : Except ε α) (f : α → Except ε β) (b : β)
    (h : Except.bind x f = .ok b) : ∃ a, x = .ok a ∧ f a = .ok b := by
  cases x with
  | error e => exact Except.noConfusion h
  | ok a => exact ⟨a, rfl, h⟩

theorem createSubWorkflowNode_of_good (gen : Nat → String) (wn : KNode) (g : GraphV)
    (l : List String) (k : Krm) (u : String) (hkrm : wn.krm? = some k)
    (hu : k.uid? = some u) (hne : (u == "") = false) :
    createSubWorkflowNode gen (some wn) g l = pure (.subWorkflow ("sub-" ++ u) g l) := by
  unfold createSubWorkflowNode
  dsimp only
  rw [hkrm]
  dsimp only
  rw [hu]
  dsimp only
  rw [if_neg (by simp [hne])]
  rfl

theorem createSubWorkflowNode_stable (gen1 gen2 : Nat → String)
    (wn? : Option KNode) (g : GraphV) (leafIds : List String)
    (hgood : ∀ wn, wn? = some wn → GoodNode wn) (n : Nat) :
    (createSubWorkflowNode gen1 wn? g leafIds).run n =
      (createSubWorkflowNode gen2 wn? g leafIds).run n := by
  cases wn? with
  | none => rfl
  | some wn =>
    cases hkrm : wn.krm? with
    | none =>
      unfold createSubWorkflowNode
      dsimp only
      rw [hkrm]
    | some k =>
      have hs := hgood wn rfl k hkrm
      rcases hu : k.uid? with _ | u
      · rw [hu] at hs; simp [stableId?] at hs
      · rw [hu] at hs
        simp only [stableId?] at hs
        have hne : (u == "") = false := by simp_all
        rw [createSubWorkflowNode_of_good gen1 wn g leafIds k u hkrm hu hne,
          createSubWorkflowNode_of_good gen2 wn g leafIds k u hkrm hu hne]

theorem createSubWorkflowNode_krm (gen : Nat → String) (wn? : Option KNode) (g : GraphV)
    (l : List String) (n : Nat) (node : KNode) (n' : Nat)
    (h : (createSubWorkflowNode gen wn? g l).run n = .ok (node, n')) :
    node.krm? = none := by
  cases wn? with
  | none => exact Except.noConfusion h
  | some wn =>
    unfold createSubWorkflowNode at h
    dsimp only at h
    cases hkrm : wn.krm? with
    | none => rw [hkrm] at h; exact Except.noConfusion h
    | some k =>
      rw [hkrm] at h
      dsimp only at h
      rcases hu : k.uid? with _ | u
      · rw [hu] at h
        dsimp only at h
        rw [build_bind_run] at h
        obtain ⟨⟨lift, n2⟩, _, hf⟩ := except_bind_ok _ _ _ h
        dsimp only at hf
        rw [build_bind_run] at hf
        obtain ⟨⟨y, n3⟩, _, hf2⟩ := except_bind_ok _ _ _ hf
        obtain ⟨h1, _⟩ := build_pure_run _ _ _ _ hf2
        subst h1
        rfl
      · rw [hu] at h
        dsimp only at h
        by_cases hc : (u == "") = true
        · rw [if_pos hc] at h
          rw [build_bind_run] at h
          obtain ⟨⟨lift, n2⟩, _, hf⟩ := except_bind_ok _ _ _ h
          dsimp only at hf
          rw [build_bind_run] at hf
          obtain ⟨⟨y, n3⟩, _, hf2⟩ := except_bind_ok _ _ _ hf
          obtain ⟨h1, _⟩ := build_pure_run _ _ _ _ hf2
          subst h1
          rfl
        · rw [if_neg hc] at h
          rw [build_bind_run] at h
          obtain ⟨⟨y, n3⟩, _, hf2⟩ := except_bind_ok _ _ _ h
          obtain ⟨h1, _⟩ := build_pure_run _ _ _ _ hf2
          subst h1
          rfl

theorem getSubWorkflowNode_stable (gen1 gen2 : Nat → String) (r1 r2 : WLNFun)
    (hre : RecEq r1 r2) (hrg : RecGood r1)
    (ns sl swid : String) (mrs : Option (List JsValue)) (n : Nat) :
    (getSubWorkflowNode gen1 r1 ns sl swid mrs).run n =
      (getSubWorkflowNode gen2 r2 ns sl swid mrs).run n := by
  unfold getSubWorkflowNode
  rw [build_bind_run, build_bind_run, ← hre ns swid (some sl) none none n]
  rcases h1 : (r1 ns swid (some sl) none none).run n with e | p
  · rfl
  · obtain ⟨⟨wg, leaves⟩, n1⟩ := p
    simp only [Except.bind]
    have hgoodHead : ∀ wn, wg.nodes.head? = some wn → GoodNode wn := by
      intro wn hwn
      exact hrg ns swid (some sl) none none n wg leaves n1 h1 wn (List.mem_of_mem_head? hwn)
    rw [build_bind_run, build_bind_run,
      ← createSubWorkflowNode_stable gen1 gen2 wg.nodes.head? wg leaves hgoodHead n1]
    rcases h2 : (createSubWorkflowNode gen1 wg.nodes.head? wg leaves).run n1 with e | q
    · rfl
    · obtain ⟨swn, n2⟩ := q
      simp only [Except.bind]
      cases mrs with
      | none => rfl
      | some iterations =>
        cases swn with
        | subWorkflow swId swGraph swLeafIds =>
          dsimp only
          rw [build_bind_run, build_bind_run]
          rw [foldlM_congr_run _ _ iterations ?_ (swGraph.nodes, []) n2]
          intro imr _ b m
          rw [build_bind_run, build_bind_run, hre ns swid (some sl) none (some imr) m]
        | workflow id krm label => rfl
        | valueFunction id krm label => rfl
        | resourceFunction id krm label mrs2 => rfl
        | parent id krm => rfl
        | refSwitch id so cn m2 label => rfl

theorem getSubWorkflowNode_krm (gen : Nat → String) (r : WLNFun)
    (ns sl swid : String) (mrs : Option (List JsValue)) (n : Nat) (node : KNode) (n' : Nat)
    (h : (getSubWorkflowNode gen r ns sl swid mrs).run n = .ok (some node, n')) :
    node.krm? = none := by
  unfold getSubWorkflowNode at h
  rw [build_bind_run] at h
  obtain ⟨⟨⟨wg, leaves⟩, n1⟩, h1, hf⟩ := except_bind_ok _ _ _ h
  dsimp only at hf
  rw [build_bind_run] at hf
  obtain ⟨⟨swn, n2⟩, h2, hg⟩ := except_bind_ok _ _ _ hf
  have hswn := createSubWorkflowNode_krm gen wg.nodes.head? wg leaves n1 swn n2 h2
  dsimp only at hg
  cases mrs with
  | none =>
    obtain ⟨h3, _⟩ := build_pure_run _ _ _ _ hg
    cases h3
    exact hswn
  | some iterations =>
    cases swn with
    | subWorkflow swId swGraph swLeafIds =>
      dsimp only at hg
      rw [build_bind_run] at hg
      obtain ⟨⟨⟨nodes2, res2⟩, n3⟩, _, hg2⟩ := except_bind_ok _ _ _ hg
      obtain ⟨h4, _⟩ := build_pure_run _ _ _ _ hg2
      cases h4
      rfl
    | workflow id krm label =>
      obtain ⟨h3, _⟩ := build_pure_run _ _ _ _ hg
      cases h3
      exact hswn
    | valueFunction id krm label =>
      obtain ⟨h3, _⟩ := build_pure_run _ _ _ _ hg
      cases h3
      exact hswn
    | resourceFunction id krm label mrs2 =>
      obtain ⟨h3, _⟩ := build_pure_run _ _ _ _ hg
      cases h3
      exact hswn
    | parent id krm =>
      obtain ⟨h3, _⟩ := build_pure_run _ _ _ _ hg
      cases h3
      exact hswn
    | refSwitch id so cn m2 label =>
      obtain ⟨h3, _⟩ := build_pure_run _ _ _ _ hg
      cases h3
      exact hswn

theorem createRefSwitchNode_good (so : String) (cns : List (String × KNode))
    (res : List ManagedKubernetesResource) (sl : Option String) :
    GoodNode (createRefSwitchNode so cns res sl) := by
  intro k hk
  simp [createRefSwitchNode, KNode.krm?] at hk

theorem addRefSwitchNode_stable (env : Env) (HE : UidComplete env)
    (gen1 gen2 : Nat → String) (r1 r2 : WLNFun) (hre : RecEq r1 r2) (hrg : RecGood r1)
    (graph : DedupedGraph) (sns : List (String × String)) (rs : RefSwitch)
    (ns sl : String) (mr : Option JsValue) (n : Nat) :
    (addRefSwitchNode env gen1 r1 graph sns rs ns sl mr).run n =
      (addRefSwitchNode env gen2 r2 graph sns rs ns sl mr).run n := by
  unfold addRefSwitchNode
  rw [build_bind_run, build_bind_run,
    foldlM_congr_run _ _ (rs.cases.getD []) ?_ ([], []) n]
  intro sc _ b m
  dsimp only
  by_cases hw : (sc.kind == "Workflow") = true
  · rw [if_pos hw, if_pos hw]
    rw [build_bind_run, build_bind_run,
      getSubWorkflowNode_stable gen1 gen2 r1 r2 hre hrg ns sl sc.name _ m]
  · rw [if_neg hw, if_neg hw]
    by_cases hv : (sc.kind == "ValueFunction") = true
    · rw [if_pos hv, if_pos hv,
        getValueFunctionNode_stable env HE gen1 gen2 ns sc.name sl]
    · rw [if_neg hv, if_neg hv,
        getResourceFunctionNode_stable env HE gen1 gen2 ns sc.name sl _]

theorem addRefSwitchNode_good (env : Env) (gen : Nat → String) (r : WLNFun)
    (graph : DedupedGraph) (sns : List (String × String)) (rs : RefSwitch)
    (ns sl : String) (mr : Option JsValue) (n : Nat)
    (graph' : DedupedGraph) (sns' : List (String × String)) (n' : Nat)
    (hg : GoodAssoc graph.nodes)
    (h : (addRefSwitchNode env gen r graph sns rs ns sl mr).run n =
      .ok ((graph', sns'), n')) :
    GoodAssoc graph'.nodes := by
  unfold addRefSwitchNode at h
  rw [build_bind_run] at h
  obtain ⟨⟨⟨cns, res⟩, n1⟩, _, hf⟩ := except_bind_ok _ _ _ h
  dsimp only at hf
  obtain ⟨h1, _⟩ := build_pure_run _ _ _ _ hf
  rw [Prod.mk.injEq] at h1
  rw [h1.1]
  exact aset_forall (P := fun p => GoodNode p.2) graph.nodes _ _ hg
    (createRefSwitchNode_good rs.switchOn cns res (some sl))

theorem addStepNodes_stable (env : Env) (HE : UidComplete env)
    (gen1 gen2 : Nat → String) (r1 r2 : WLNFun) (hre : RecEq r1 r2) (hrg : RecGood r1)
    (ns : String) (step : Step) (graph : DedupedGraph) (sns : List (String × String))
    (mr : Option JsValue) (n : Nat) :
    (addStepNodes env gen1 r1 ns step graph sns mr).run n =
      (addStepNodes env gen2 r2 ns step graph sns mr).run n := by
  unfold addStepNodes
  cases hrs : step.refSwitch with
  | some rs =>
    dsimp only
    exact addRefSwitchNode_stable env HE gen1 gen2 r1 r2 hre hrg graph sns rs ns
      step.label _ n
  | none =>
    cases href : step.ref with
    | none => rfl
    | some ref =>
      dsimp only
      by_cases hw : (ref.kind == "Workflow") = true
      · rw [if_pos hw, if_pos hw]
        rw [build_bind_run, build_bind_run,
          getSubWorkflowNode_stable gen1 gen2 r1 r2 hre hrg ns step.label ref.name _ n]
      · rw [if_neg hw, if_neg hw]
        by_cases hv : (ref.kind == "ValueFunction") = true
        · rw [if_pos hv, if_pos hv,
            getValueFunctionNode_stable env HE gen1 gen2 ns ref.name step.label]
        · rw [if_neg hv, if_neg hv,
            getResourceFunctionNode_stable env HE gen1 gen2 ns ref.name step.label _]

theorem addStepNodes_good (env : Env) (HE : UidComplete env) (gen : Nat → String)
    (r : WLNFun) (ns : String) (step : Step) (graph : DedupedGraph)
    (sns : List (String × String)) (mr : Option JsValue) (n : Nat)
    (graph' : DedupedGraph) (sns' : List (String × String)) (n' : Nat)
    (hg : GoodAssoc graph.nodes)
    (h : (addStepNodes env gen r ns step graph sns mr).run n = .ok ((graph', sns'), n')) :
    GoodAssoc graph'.nodes := by
  unfold addStepNodes at h
  cases hrs : step.refSwitch with
  | some rs =>
    rw [hrs] at h
    dsimp only at h
    exact addRefSwitchNode_good env gen r graph sns rs ns step.label _ n graph' sns' n' hg h
  | none =>
    rw [hrs] at h
    cases href : step.ref with
    | none =>
      rw [href] at h
      dsimp only at h
      obtain ⟨h1, _⟩ := build_pure_run _ _ _ _ h
      rw [Prod.mk.injEq] at h1
      rw [h1.1]
      exact hg
    | some ref =>
      rw [href] at h
      dsimp only at h
      by_cases hw : (ref.kind == "Workflow") = true
      · rw [if_pos hw] at h
        rw [build_bind_run] at h
        obtain ⟨⟨swn?, n1⟩, h1, hf⟩ := except_bind_ok _ _ _ h
        cases swn? with
        | none =>
          dsimp only at hf
          obtain ⟨h2, _⟩ := build_pure_run _ _ _ _ hf
          rw [Prod.mk.injEq] at h2
          rw [h2.1]
          exact hg
        | some swn =>
          have hkrm := getSubWorkflowNode_krm gen r ns step.label ref.name _ n swn n1 h1
          have hgood : GoodNode swn := by
            intro k hk
            rw [hkrm] at hk
            cases hk
          cases swn with
          | subWorkflow swId swGraph swLeafIds =>
            dsimp only at hf
            obtain ⟨h2, _⟩ := build_pure_run _ _ _ _ hf
            rw [Prod.mk.injEq] at h2
            rw [h2.1]
            exact aset_forall (P := fun p => GoodNode p.2) graph.nodes _ _ hg hgood
          | workflow a b c =>
            dsimp only at hf
            obtain ⟨h2, _⟩ := build_pure_run _ _ _ _ hf
            rw [Prod.mk.injEq] at h2
            rw [h2.1]
            exact aset_forall (P := fun p => GoodNode p.2) graph.nodes _ _ hg hgood
          | valueFunction a b c =>
            dsimp only at hf
            obtain ⟨h2, _⟩ := build_pure_run _ _ _ _ hf
            rw [Prod.mk.injEq] at h2
            rw [h2.1]
            exact aset_forall (P := fun p => GoodNode p.2) graph.nodes _ _ hg hgood
          | resourceFunction a b c d =>
            dsimp only at hf
            obtain ⟨h2, _⟩ := build_pure_run _ _ _ _ hf
            rw [Prod.mk.injEq] at h2
            rw [h2.1]
            exact aset_forall (P := fun p => GoodNode p.2) graph.nodes _ _ hg hgood
          | parent a b =>
            dsimp only at hf
            obtain ⟨h2, _⟩ := build_pure_run _ _ _ _ hf
            rw [Prod.mk.injEq] at h2
            rw [h2.1]
            exact aset_forall (P := fun p => GoodNode p.2) graph.nodes _ _ hg hgood
          | refSwitch a b c d e =>
            dsimp only at hf
            obtain ⟨h2, _⟩ := build_pure_run _ _ _ _ hf
            rw [Prod.mk.injEq] at h2
            rw [h2.1]
            exact aset_forall (P := fun p => GoodNode p.2) graph.nodes _ _ hg hgood
      · rw [if_neg hw] at h
        by_cases hv : (ref.kind == "ValueFunction") = true
        · rw [if_pos hv] at h
          rw [build_bind_run] at h
          obtain ⟨⟨node?, n1⟩, h1, hf⟩ := except_bind_ok _ _ _ h
          cases node? with
          | none =>
            dsimp only at hf
            obtain ⟨h2, _⟩ := build_pure_run _ _ _ _ hf
            rw [Prod.mk.injEq] at h2
            rw [h2.1]
            exact hg
          | some node =>
            have hgood := getValueFunctionNode_good env HE gen ns ref.name step.label
              n node n1 h1
            dsimp only at hf
            obtain ⟨h2, _⟩ := build_pure_run _ _ _ _ hf
            rw [Prod.mk.injEq] at h2
            rw [h2.1]
            exact aset_forall (P := fun p => GoodNode p.2) graph.nodes _ _ hg hgood
        · rw [if_neg hv] at h
          rw [build_bind_run] at h
          obtain ⟨⟨node?, n1⟩, h1, hf⟩ := except_bind_ok _ _ _ h
          cases node? with
          | none =>
            dsimp only at hf
            obtain ⟨h2, _⟩ := build_pure_run _ _ _ _ hf
            rw [Prod.mk.injEq] at h2
            rw [h2.1]
            exact hg
          | some node =>
            have hgood := getResourceFunctionNode_good env HE gen ns ref.name step.label
              _ n node n1 h1
            cases node with
            | resourceFunction a b c d =>
              cases d with
              | none =>
                dsimp only at hf
                obtain ⟨h2, _⟩ := build_pure_run _ _ _ _ hf
                rw [Prod.mk.injEq] at h2
                rw [h2.1]
                exact aset_forall (P := fun p => GoodNode p.2) graph.nodes _ _ hg hgood
              | some mrs =>
                dsimp only at hf
                obtain ⟨h2, _⟩ := build_pure_run _ _ _ _ hf
                rw [Prod.mk.injEq] at h2
                rw [h2.1]
                exact aset_forall (P := fun p => GoodNode p.2) graph.nodes _ _ hg hgood
            | workflow a b c =>
              dsimp only at hf
              obtain ⟨h2, _⟩ := build_pure_run _ _ _ _ hf
              rw [Prod.mk.injEq] at h2
              rw [h2.1]
              exact aset_forall (P := fun p => GoodNode p.2) graph.nodes _ _ hg hgood
            | valueFunction a b c =>
              dsimp only at hf
              obtain ⟨h2, _⟩ := build_pure_run _ _ _ _ hf
              rw [Prod.mk.injEq] at h2
              rw [h2.1]
              exact aset_forall (P := fun p => GoodNode p.2) graph.nodes _ _ hg hgood
            | parent a b =>
              dsimp only at hf
              obtain ⟨h2, _⟩ := build_pure_run _ _ _ _ hf
              rw [Prod.mk.injEq] at h2
              rw [h2.1]
              exact aset_forall (P := fun p => GoodNode p.2) graph.nodes _ _ hg hgood
            | refSwitch a b c d e =>
              dsimp only at hf
              obtain ⟨h2, _⟩ := build_pure_run _ _ _ _ hf
              rw [Prod.mk.injEq] at h2
              rw [h2.1]
              exact aset_forall (P := fun p => GoodNode p.2) graph.nodes _ _ hg hgood
            | subWorkflow a b c =>
              dsimp only at hf
              obtain ⟨h2, _⟩ := build_pure_run _ _ _ _ hf
              rw [Prod.mk.injEq] at h2
              rw [h2.1]
              exact aset_forall (P := fun p => GoodNode p.2) graph.nodes _ _ hg hgood

theorem addDependencyEdge_nodes (sn : KNode) (sns : List (String × String))
    (st : ScanState) (x : String) :
    (addDependencyEdge sn sns st x).graph.nodes = st.graph.nodes := by
  unfold addDependencyEdge
  cases aget? sns x with
  | none => rfl
  | some pid =>
    dsimp only
    cases aget? st.graph.nodes pid with
    | none => rfl
    | some pn => rfl

theorem foldl_addDependencyEdge_nodes (sn : KNode) (sns : List (String × String))
    (ls : List String) : ∀ st : ScanState,
    ((ls.foldl (addDependencyEdge sn sns) st).graph.nodes = st.graph.nodes) := by
  induction ls with
  | nil => intro st; rfl
  | cons x xs ih =>
    intro st
    rw [List.foldl_cons, ih, addDependencyEdge_nodes]

theorem findAndAdd_nodes (v : JsValue) (sn : KNode) (sns : List (String × String))
    (g : DedupedGraph) (d : List String) :
    (findAndAddStepDependencies v sn sns g d).1.nodes = g.nodes := by
  unfold findAndAddStepDependencies
  rw [processValue_spec]
  exact foldl_addDependencyEdge_nodes sn sns _ _

theorem stepEdgeForStep_nodes (wfN : KNode) (sns : List (String × String))
    (acc : DedupedGraph × List String) (s : Step) :
    (stepEdgeForStep wfN sns acc s).1.nodes = acc.1.nodes := by
  obtain ⟨g, d⟩ := acc
  unfold stepEdgeForStep
  dsimp only
  cases aget? sns s.label with
  | none => rfl
  | some nid =>
    dsimp only
    cases aget? g.nodes nid with
    | none => rfl
    | some node =>
      dsimp only
      cases s.inputs with
      | none =>
        dsimp only
        cases s.forEach with
        | none =>
          dsimp only
          cases s.refSwitch with
          | none =>
            dsimp only
            split <;> rfl
          | some rsw =>
            dsimp only
            rcases h3 : findAndAddStepDependencies (JsValue.str rsw.switchOn) node sns g d with ⟨g3, d3, f3⟩
            dsimp only
            have e3 : g3.nodes = g.nodes := by
              have hx := findAndAdd_nodes (JsValue.str rsw.switchOn) node sns g d
              rw [h3] at hx
              exact hx
            split <;> (dsimp only; simp only [e3])
        | some fe =>
          dsimp only
          rcases h2 : findAndAddStepDependencies (JsValue.str fe.itemIn) node sns g d with ⟨g2, d2, f2⟩
          dsimp only
          have e2 : g2.nodes = g.nodes := by
            have hx := findAndAdd_nodes (JsValue.str fe.itemIn) node sns g d
            rw [h2] at hx
            exact hx
          cases s.refSwitch with
          | none =>
            dsimp only
            split <;> (dsimp only; simp only [e2])
          | some rsw =>
            dsimp only
            rcases h3 : findAndAddStepDependencies (JsValue.str rsw.switchOn) node sns g2 d2 with ⟨g3, d3, f3⟩
            dsimp only
            have e3 : g3.nodes = g2.nodes := by
              have hx := findAndAdd_nodes (JsValue.str rsw.switchOn) node sns g2 d2
              rw [h3] at hx
              exact hx
            split <;> (dsimp only; simp only [e3, e2])
      | some inp =>
        dsimp only
        rcases h1 : findAndAddStepDependencies inp node sns g d with ⟨g1, d1, f1⟩
        dsimp only
        have e1 : g1.nodes = g.nodes := by
          have hx := findAndAdd_nodes inp node sns g d
          rw [h1] at hx
          exact hx
        cases s.forEach with
        | none =>
          dsimp only
          cases s.refSwitch with
          | none =>
            dsimp only
            split <;> (dsimp only; simp only [e1])
          | some rsw =>
            dsimp only
            rcases h3 : findAndAddStepDependencies (JsValue.str rsw.switchOn) node sns g1 d1 with ⟨g3, d3, f3⟩
            dsimp only
            have e3 : g3.nodes = g1.nodes := by
              have hx := findAndAdd_nodes (JsValue.str rsw.switchOn) node sns g1 d1
              rw [h3] at hx
              exact hx
            split <;> (dsimp only; simp only [e3, e1])
        | some fe =>
          dsimp only
          rcases h2 : findAndAddStepDependencies (JsValue.str fe.itemIn) node sns g1 d1 with ⟨g2, d2, f2⟩
          dsimp only
          have e2 : g2.nodes = g1.nodes := by
            have hx := findAndAdd_nodes (JsValue.str fe.itemIn) node sns g1 d1
            rw [h2] at hx
            exact hx
          cases s.refSwitch with
          | none =>
            dsimp only
            split <;> (dsimp only; simp only [e2, e1])
          | some rsw =>
            dsimp only
            rcases h3 : findAndAddStepDependencies (JsValue.str rsw.switchOn) node sns g2 d2 with ⟨g3, d3, f3⟩
            dsimp only
            have e3 : g3.nodes = g2.nodes := by
              have hx := findAndAdd_nodes (JsValue.str rsw.switchOn) node sns g2 d2
              rw [h3] at hx
              exact hx
            split <;> (dsimp only; simp only [e3, e2, e1])

theorem foldl_stepEdgeForStep_nodes (wfN : KNode) (sns : List (String × String))
    (steps : List Step) : ∀ acc : DedupedGraph × List String,
    ((steps.foldl (stepEdgeForStep wfN sns) acc).1.nodes = acc.1.nodes) := by
  induction steps with
  | nil => intro acc; rfl
  | cons s ss ih =>
    intro acc
    rw [List.foldl_cons, ih, stepEdgeForStep_nodes]

theorem pure_run_eq {α : Type} (x : α) (n : Nat) :
    (pure x : Build α).run n = Except.ok (x, n) := rfl

theorem goodAssoc_nil : GoodAssoc ([] : List (String × KNode)) := by
  intro p hp
  exact absurd hp (List.not_mem_nil p)

theorem goodAssoc_aset (m : List (String × KNode)) (k : String) (v : KNode)
    (hm : GoodAssoc m) (hv : GoodNode v) : GoodAssoc (aset m k v) :=
  aset_forall (P := fun q => GoodNode q.2) m k v hm hv

theorem buildStepsEdgesLeaves_stable (env : Env) (HE : UidComplete env)
    (gen1 gen2 : Nat → String) (r1 r2 : WLNFun) (hre : RecEq r1 r2) (hrg : RecGood r1)
    (ns : String) (w : Workflow) (wfN : KNode) (g : DedupedGraph)
    (mr : Option JsValue) (n : Nat) :
    (buildStepsEdgesLeaves env gen1 r1 ns w wfN g mr).run n =
      (buildStepsEdgesLeaves env gen2 r2 ns w wfN g mr).run n := by
  unfold buildStepsEdgesLeaves
  rw [build_bind_run, build_bind_run,
    foldlM_congr_run _ _ w.spec.steps ?_ (g, []) n]
  intro step _ acc m
  exact addStepNodes_stable env HE gen1 gen2 r1 r2 hre hrg ns step acc.1 acc.2 mr m

theorem buildStepsEdgesLeaves_good (env : Env) (HE : UidComplete env)
    (gen : Nat → String) (r : WLNFun) (ns : String) (w : Workflow) (wfN : KNode)
    (g : DedupedGraph) (mr : Option JsValue) (n : Nat) (gv : GraphV)
    (ls : List String) (n' : Nat) (hg : GoodAssoc g.nodes)
    (h : (buildStepsEdgesLeaves env gen r ns w wfN g mr).run n = .ok ((gv, ls), n')) :
    GoodGraph gv := by
  unfold buildStepsEdgesLeaves at h
  rw [build_bind_run] at h
  obtain ⟨⟨⟨g1, sns1⟩, n1⟩, h1, hf⟩ := except_bind_ok _ _ _ h
  have hg1 : GoodAssoc g1.nodes := by
    refine foldlM_run_inv
      (P := fun acc : DedupedGraph × List (String × String) => GoodAssoc acc.1.nodes)
      _ w.spec.steps (g, []) n (g1, sns1) n1 ?_ hg h1
    intro x _ c m c' m' hc hstep
    exact addStepNodes_good env HE gen r ns x c.1 c.2 mr m c'.1 c'.2 m' hc hstep
  dsimp only at hf
  rcases hsplit : w.spec.steps.foldl (stepEdgeForStep wfN sns1) (g1, []) with ⟨g2, nwd2⟩
  rw [hsplit] at hf
  dsimp only at hf
  obtain ⟨heq, _⟩ := build_pure_run _ _ _ _ hf
  rw [Prod.mk.injEq] at heq
  rw [heq.1]
  have hgn2 : g2.nodes = g1.nodes := by
    have hx := foldl_stepEdgeForStep_nodes wfN sns1 w.spec.steps (g1, [])
    rw [hsplit] at hx
    exact hx
  intro node hnode
  have hnode2 : node ∈ avalues g2.nodes := hnode
  rw [hgn2] at hnode2
  obtain ⟨p, hp, hpe⟩ :=
    List.mem_map.mp (show node ∈ g1.nodes.map (fun q => q.2) from hnode2)
  rw [← hpe]
  exact hg1 p hp

theorem wlnF_stable (env : Env) (HE : UidComplete env) (gen1 gen2 : Nat → String)
    (r1 r2 : WLNFun) (hre : RecEq r1 r2) (hrg : RecGood r1)
    (ns id : String) (sl iid : Option String) (mr : Option JsValue) (n : Nat) :
    (getWorkflowGraphWithLeafNodesF env gen1 r1 ns id sl iid mr).run n =
      (getWorkflowGraphWithLeafNodesF env gen2 r2 ns id sl iid mr).run n := by
  unfold getWorkflowGraphWithLeafNodesF
  cases hw : env.workflows ns id with
  | none => rfl
  | some w =>
    dsimp only
    have hst := HE.1 ns id w hw
    rw [build_bind_run, build_bind_run,
      createWorkflowNode_stable gen1 w sl hst, createWorkflowNode_stable gen2 w sl hst,
      pure_run_eq]
    dsimp only [Except.bind]
    cases iid with
    | none =>
      exact buildStepsEdgesLeaves_stable env HE gen1 gen2 r1 r2 hre hrg ns w _ _ mr n
    | some iid2 =>
      dsimp only
      cases hinst : env.instanceOf w iid2 with
      | none => rfl
      | some parent =>
        dsimp only
        have hp := HE.2.1 w iid2 parent hinst
        rw [build_bind_run, build_bind_run,
          createParentNode_stable gen1 parent hp, createParentNode_stable gen2 parent hp,
          pure_run_eq]
        dsimp only [Except.bind]
        exact buildStepsEdgesLeaves_stable env HE gen1 gen2 r1 r2 hre hrg ns w _ _ _ n

theorem wlnF_good (env : Env) (HE : UidComplete env) (gen : Nat → String)
    (r : WLNFun) (ns id : String) (sl iid : Option String) (mr : Option JsValue)
    (n : Nat) (gv : GraphV) (ls : List String) (n' : Nat)
    (h : (getWorkflowGraphWithLeafNodesF env gen r ns id sl iid mr).run n =
      .ok ((gv, ls), n')) :
    GoodGraph gv := by
  unfold getWorkflowGraphWithLeafNodesF at h
  cases hw : env.workflows ns id with
  | none =>
    rw [hw] at h
    dsimp only at h
    obtain ⟨heq, _⟩ := build_pure_run _ _ _ _ h
    rw [Prod.mk.injEq] at heq
    rw [heq.1]
    intro node hnode
    simp [dedupedGraphToGraph, GraphV.nodes, avalues] at hnode
  | some w =>
    rw [hw] at h
    dsimp only at h
    have hst := HE.1 ns id w hw
    rw [build_bind_run, createWorkflowNode_stable gen w sl hst, pure_run_eq] at h
    dsimp only [Except.bind] at h
    have hgn : GoodNode (KNode.workflow ((workflowToKrm w).uid?.getD "")
        (workflowToKrm w) sl) := by
      intro k hk
      have hk' : some (workflowToKrm w) = some k := hk
      cases hk'
      exact hst
    cases iid with
    | none =>
      refine buildStepsEdgesLeaves_good env HE gen r ns w _ _ mr n gv ls n' ?_ h
      exact goodAssoc_aset _ _ _ goodAssoc_nil hgn
    | some iid2 =>
      dsimp only at h
      cases hinst : env.instanceOf w iid2 with
      | none =>
        rw [hinst] at h
        dsimp only at h
        obtain ⟨heq, _⟩ := build_pure_run _ _ _ _ h
        rw [Prod.mk.injEq] at heq
        rw [heq.1]
        intro node hnode
        simp only [dedupedGraphToGraph, GraphV.nodes, avalues] at hnode
        obtain ⟨p, hp, hpe⟩ := List.mem_map.mp hnode
        rw [← hpe]
        exact goodAssoc_aset _ _ _ goodAssoc_nil hgn p hp
      | some parent =>
        rw [hinst] at h
        dsimp only at h
        have hp := HE.2.1 w iid2 parent hinst
        rw [build_bind_run, createParentNode_stable gen parent hp, pure_run_eq] at h
        dsimp only [Except.bind] at h
        refine buildStepsEdgesLeaves_good env HE gen r ns w _ _ _ n gv ls n' ?_ h
        have hpn : GoodNode (KNode.parent ((parentToKrm parent).uid?.getD "")
            (parentToKrm parent)) := by
          intro k hk
          have hk' : some (parentToKrm parent) = some k := hk
          cases hk'
          exact hp
        exact goodAssoc_aset _ _ _ (goodAssoc_aset _ _ _ goodAssoc_nil hgn) hpn


theorem wln_stable_good (env : Env) (HE : UidComplete env) (gen1 gen2 : Nat → String) :
    ∀ fuel : Nat,
      RecEq (getWorkflowGraphWithLeafNodes env gen1 fuel)
          (getWorkflowGraphWithLeafNodes env gen2 fuel) ∧
        RecGood (getWorkflowGraphWithLeafNodes env gen1 fuel) := by
  intro fuel
  induction fuel with
  | zero =>
    constructor
    · intro ns id sl iid mr n
      rfl
    · intro ns id sl iid mr n g ls n' h
      have h' : (Except.error "sub-workflow recursion fuel exhausted"
          : Except String ((GraphV × List String) × Nat)) = .ok ((g, ls), n') := h
      exact Except.noConfusion h'
  | succ fuel ih =>
    obtain ⟨ihEq, ihGood⟩ := ih
    constructor
    · intro ns id sl iid mr n
      exact wlnF_stable env HE gen1 gen2 _ _ ihEq ihGood ns id sl iid mr n
    · intro ns id sl iid mr n g ls n' h
      exact wlnF_good env HE gen1 _ ns id sl iid mr n g ls n' h

def wfC7w : Workflow :=
  ⟨some ⟨some "wfu-c7w", some "main"⟩,
    ⟨none, [⟨"a", some ⟨"ValueFunction", "fn-a"⟩, none, none, none⟩]⟩⟩

/-- A uid-complete environment: every fetchable object carries a non-empty
`metadata.uid`, and no workflow instances exist. -/
def envC7w : Env :=
  ⟨fun _ _ => some wfC7w, fun _ _ => none,
    fun _ _ => some (mkKrm "ValueFunction" "vfu-a" "fn-a"),
    fun _ _ => some (mkKrm "ResourceFunction" "rfu-a" "fn-a"),
    fun _ _ _ _ => none, fun _ => none⟩

/-- C7 (amended). The spec says repeated constructions of the same workflow
produce the same graph; unconditionally this fails because `uuidv4()` mints a
fresh node id whenever a fetched object lacks `metadata.uid` (see
`claim_C7_counterexample`). The amended claim: provided every object the
environment can return carries a non-empty `metadata.uid` (`UidComplete`),
`getWorkflowGraph` is independent of the uuid generator, so two runs return
identical results. -/
theorem claim_C7 (env : Env) (HE : UidComplete env) (gen1 gen2 : Nat → String)
    (fuel : Nat) (ns workflowId : String) (instanceId : Option String) (n : Nat) :
    (getWorkflowGraph env gen1 fuel ns workflowId instanceId).run n =
      (getWorkflowGraph env gen2 fuel ns workflowId instanceId).run n := by
  unfold getWorkflowGraph
  rw [build_bind_run, build_bind_run,
    (wln_stable_good env HE gen1 gen2 fuel).1 ns workflowId none instanceId none n]

/-- Witness for C7: a concrete uid-complete environment, two distinct uuid
generators, concrete fuel; the hypotheses are discharged by computation. -/
theorem claim_C7_witness :
    (getWorkflowGraph envC7w genA 3 "ns" "main" none).run 0 =
      (getWorkflowGraph envC7w genB 3 "ns" "main" none).run 0 :=
  claim_C7 envC7w
    ⟨fun _ _ w h => by cases h; rfl,
     fun _ _ p h => Option.noConfusion h,
     fun _ _ k h => by cases h; rfl,
     fun _ _ k h => by cases h; rfl⟩
    genA genB 3 "ns" "main" none 0

end Koreo
